import Mathlib

/-!
# rpi_motor_control: quadrature decoder, PID controller, motor loop, monitor

A shallow embedding of `src/Encoder.cpp` (the edge-processing body of
`Encoder::worker_`, `readAB`, `qdelta`, `Encoder::zero`), of `src/PID.cpp` /
`src/PID.h` (constructors, setters, `reset`, `step`, `clamp`), of
`src/Motoron.cpp` (the driver and the frames it writes), of `src/Motor.cpp`
(`Motor::update`, `Motor::enable`) and of `src/util.cpp` (`ThreadMonitor`).

Conventions of the embedding

* `int32_t`, `uint32_t` and `uint64_t` fields are `Int` / `Nat` values with
  the wrap-around of the C++ operation written out (`wrapInt32`, `% 2^32`,
  `% 2^64`).
* `double` values are exact rationals (`ℚ`): comparisons, `std::min`,
  `std::max` and the arithmetic are those of the source, without rounding,
  infinities or NaN.
* Atomic fields are plain fields: each has a single writer (the worker), and
  the model is the sequential behaviour of that writer.
-/

namespace RpiMotorControl

/-! ## Encoder.cpp -/

/-- Two's-complement wrap of an integer into the `int32_t` range, the result
of `std::atomic<int32_t>::fetch_add`. -/
def wrapInt32 (x : Int) : Int := (x + 2147483648) % 4294967296 - 2147483648

/-- Unsigned 64-bit subtraction `a - b` (wraps modulo `2^64`). -/
def subUInt64 (a b : Nat) : Nat := Int.toNat (((a : Int) - (b : Int)) % 18446744073709551616)

/-- The rows of `const int8_t qdelta[4][4]` (`Encoder.cpp`, lines 22-26). -/
def qdeltaRows : List (List Int) :=
  [[0, 1, -1, 0],
   [-1, 0, 0, 1],
   [1, 0, 0, -1],
   [0, -1, 1, 0]]

/-- The lookup `qdelta[old][neu]`; both indices are 2-bit states. -/
def qdelta (old neu : Fin 4) : Int := (qdeltaRows.getD old.val []).getD neu.val 0

/-- The function `readAB`: `none` stands for the return value `-1` (a level
read failed), `some s` for the state `((va ? 1 : 0) << 1) | (vb ? 1 : 0)`. -/
def readAB (va vb : Int) : Option (Fin 4) :=
  if va < 0 ∨ vb < 0 then none
  else some (Fin.ofNat (2 * (if va ≠ 0 then 1 else 0) + (if vb ≠ 0 then 1 else 0)))

/-- The state the worker thread mutates: the atomic fields of `Encoder`
together with the worker's two local debounce timestamps. -/
structure Encoder where
  /-- the field `std::atomic<int32_t> count_` -/
  count_ : Int
  /-- the field `std::atomic<uint32_t> illegal_` -/
  illegal_ : Nat
  /-- the field `std::atomic<uint8_t> state_`, always `(A<<1)|B` -/
  state_ : Fin 4
  /-- the field `unsigned debounce_us_` -/
  debounce_us_ : Nat
  /-- the local `last_a_us` of `worker_` -/
  last_a_us : Nat
  /-- the local `last_b_us` of `worker_` -/
  last_b_us : Nat
  deriving DecidableEq, Repr

/-- One edge event as the worker sees it: the line it came from (`i = 0` is
channel A, `i = 1` is channel B), its timestamp in microseconds, and the two
levels that `gpiod_line_get_value` returns when the worker re-reads them. -/
structure EdgeEvent where
  /-- index of the line in `fds` -/
  i : Fin 2
  /-- the value `to_us(ev.ts)` -/
  now_us : Nat
  /-- level read on line A (negative: read error) -/
  va : Int
  /-- level read on line B (negative: read error) -/
  vb : Int
  deriving DecidableEq, Repr

/-- The reference `last_us` of `worker_`: the timestamp stored for line `i`. -/
def Encoder.last_us (e : Encoder) (i : Fin 2) : Nat :=
  if i = 0 then e.last_a_us else e.last_b_us

/-- The assignment `last_us = now_us` for line `i`. -/
def Encoder.setLastUs (e : Encoder) (i : Fin 2) (now_us : Nat) : Encoder :=
  if i = 0 then { e with last_a_us := now_us } else { e with last_b_us := now_us }

/-- The debounce test `debounce_us_ && (now_us - last_us) < debounce_us_`. -/
def Encoder.debounced (e : Encoder) (ev : EdgeEvent) : Bool :=
  decide (e.debounce_us_ ≠ 0) && decide (subUInt64 ev.now_us (e.last_us ev.i) < e.debounce_us_)

/-- Lines 124-135 of `worker_`: apply the quadrature table to the freshly
sampled state `neu`. -/
def Encoder.applyTransition (e : Encoder) (neu : Fin 4) : Encoder :=
  let old := e.state_
  let d := qdelta old neu
  if d = 0 ∧ neu ≠ old then
    { e with illegal_ := (e.illegal_ + 1) % 4294967296, state_ := neu }
  else if d ≠ 0 then
    { e with count_ := wrapInt32 (e.count_ + d), state_ := neu }
  else
    { e with state_ := neu }

/-- Lines 110-135 of `worker_`: what the worker does with one edge event that
`gpiod_line_event_read` delivered. -/
def Encoder.processEdge (e : Encoder) (ev : EdgeEvent) : Encoder :=
  if e.debounced ev then
    e.setLastUs ev.i ev.now_us
  else
    let e1 := e.setLastUs ev.i ev.now_us
    match readAB ev.va ev.vb with
    | none => e1
    | some neu => e1.applyTransition neu

/-- The method `Encoder::zero`. -/
def Encoder.zero (e : Encoder) : Encoder :=
  { e with count_ := 0, illegal_ := 0 }

/-- A sequence of sampled states, each applied as a processed edge. -/
def Encoder.applySamples (e : Encoder) (samples : List (Fin 4)) : Encoder :=
  samples.foldl Encoder.applyTransition e

/-! ### Vocabulary of the specification -/

/-- Channel A bit of a 2-bit state `(A<<1)|B`. -/
def bitA (s : Fin 4) : Nat := s.val / 2

/-- Channel B bit of a 2-bit state `(A<<1)|B`. -/
def bitB (s : Fin 4) : Nat := s.val % 2

/-- Number of channel bits in which two states differ. -/
def bitsDiffering (a b : Fin 4) : Nat :=
  (if bitA a ≠ bitA b then 1 else 0) + (if bitB a ≠ bitB b then 1 else 0)

/-- The 4x4 table as printed in the specification (row = old, column = new,
states ordered 00, 01, 10, 11). -/
def specTable (old neu : Fin 4) : Int :=
  match old.val, neu.val with
  | 0, 0 => 0 | 0, 1 => 1 | 0, 2 => -1 | 0, 3 => 0
  | 1, 0 => -1 | 1, 1 => 0 | 1, 2 => 0 | 1, 3 => 1
  | 2, 0 => 1 | 2, 1 => 0 | 2, 2 => 0 | 2, 3 => -1
  | 3, 0 => 0 | 3, 1 => -1 | 3, 2 => 1 | 3, 3 => 0
  | _, _ => 0

/-- One clean quadrature cycle 00 -> 01 -> 11 -> 10 -> 00, as the states
sampled after each edge. -/
def cleanCycle : List (Fin 4) := [1, 3, 2, 0]

/-- The clean cycle repeated `N` times. -/
def cleanSequence : Nat → List (Fin 4)
  | 0 => []
  | n + 1 => cleanCycle ++ cleanSequence n

/-! ## PID.h / PID.cpp -/

/-- The function `std::min(a, b)`, which is `(b < a) ? b : a`. -/
def stdMin (a b : ℚ) : ℚ := if b < a then b else a

/-- The function `std::max(a, b)`, which is `(a < b) ? b : a`. -/
def stdMax (a b : ℚ) : ℚ := if a < b then b else a

/-- The data members of `class PID`. -/
structure PID where
  /-- proportional gain -/
  p_gain_ : ℚ
  /-- integral gain -/
  i_gain_ : ℚ
  /-- derivative gain -/
  d_gain_ : ℚ
  /-- lower output saturation limit -/
  output_min_ : ℚ
  /-- upper output saturation limit -/
  output_max_ : ℚ
  /-- lower integrator limit -/
  integrator_min_ : ℚ
  /-- upper integrator limit -/
  integrator_max_ : ℚ
  /-- back-calculation gain -/
  anti_windup_gain_ : ℚ
  /-- integrator accumulator -/
  integrator_state_ : ℚ
  /-- error of the previous step -/
  previous_error_ : ℚ
  /-- diagnostic: last unclamped command -/
  last_control_unclamped_ : ℚ
  /-- diagnostic: last saturated command -/
  last_control_saturated_ : ℚ
  deriving DecidableEq

namespace PID

/-- The helper `PID::clamp`: `std::max(low, std::min(value, high))`. -/
def clamp (value low high : ℚ) : ℚ := stdMax low (stdMin value high)

/-- The defaulted constructor `PID()`: every member takes its default member
initialiser from `PID.h`. -/
def newDefault : PID :=
  { p_gain_ := 0, i_gain_ := 0, d_gain_ := 0,
    output_min_ := -1, output_max_ := 1,
    integrator_min_ := -1000000, integrator_max_ := 1000000,
    anti_windup_gain_ := 0,
    integrator_state_ := 0, previous_error_ := 0,
    last_control_unclamped_ := 0, last_control_saturated_ := 0 }

/-- The six-argument constructor `PID::PID`: the members not in its
initialiser list keep their default member initialisers; the output limits are
swapped when given in the wrong order. -/
def new (proportional_gain integral_gain derivative_gain output_min output_max
    anti_windup_gain : ℚ) : PID :=
  let s : PID :=
    { newDefault with
      p_gain_ := proportional_gain, i_gain_ := integral_gain, d_gain_ := derivative_gain,
      output_min_ := output_min, output_max_ := output_max,
      anti_windup_gain_ := anti_windup_gain }
  if s.output_min_ > s.output_max_ then
    { s with output_min_ := s.output_max_, output_max_ := s.output_min_ }
  else s

/-- The method `PID::setGains`. -/
def setGains (s : PID) (proportional_gain integral_gain derivative_gain : ℚ) : PID :=
  { s with p_gain_ := proportional_gain, i_gain_ := integral_gain, d_gain_ := derivative_gain }

/-- The method `PID::setOutputSaturationLimits`. -/
def setOutputSaturationLimits (s : PID) (output_min output_max : ℚ) : PID :=
  let s1 : PID := { s with output_min_ := output_min, output_max_ := output_max }
  if s1.output_min_ > s1.output_max_ then
    { s1 with output_min_ := s1.output_max_, output_max_ := s1.output_min_ }
  else s1

/-- The method `PID::setIntegralStateLimits`. -/
def setIntegralStateLimits (s : PID) (integrator_min integrator_max : ℚ) : PID :=
  let s1 : PID := { s with integrator_min_ := integrator_min, integrator_max_ := integrator_max }
  if s1.integrator_min_ > s1.integrator_max_ then
    { s1 with integrator_min_ := s1.integrator_max_, integrator_max_ := s1.integrator_min_ }
  else s1

/-- The method `PID::setAntiWindupGain`. -/
def setAntiWindupGain (s : PID) (anti_windup_gain : ℚ) : PID :=
  { s with anti_windup_gain_ := anti_windup_gain }

/-- The method `PID::reset`. -/
def reset (s : PID) (integrator_state previous_error : ℚ) : PID :=
  { s with
    integrator_state_ := clamp integrator_state s.integrator_min_ s.integrator_max_,
    previous_error_ := previous_error,
    last_control_unclamped_ := 0,
    last_control_saturated_ := 0 }

/-- The guard at the top of `PID::step`: `if (ts <= 0.0) ts = 1e-6;`. -/
def guardTs (ts : ℚ) : ℚ := if ts ≤ 0 then 1 / 1000000 else ts

/-- The method `PID::step`: the returned command and the state it leaves. -/
def step (s : PID) (reference measurement ts : ℚ) : ℚ × PID :=
  let ts := guardTs ts
  let error := reference - measurement
  let p_term := s.p_gain_ * error
  let d_term := s.d_gain_ * (error - s.previous_error_) / ts
  let control_unclamped := p_term + s.integrator_state_ + d_term
  let control_clamped := clamp control_unclamped s.output_min_ s.output_max_
  let integrator_state : ℚ :=
    if s.anti_windup_gain_ > 0 then
      let anti_windup_correction := s.anti_windup_gain_ * (control_clamped - control_unclamped)
      s.integrator_state_ + (s.i_gain_ * error + anti_windup_correction) * ts
    else
      let pushing_high : Bool := decide (control_unclamped ≥ s.output_max_) && decide (error > 0)
      let pushing_low : Bool := decide (control_unclamped ≤ s.output_min_) && decide (error < 0)
      if !(pushing_high || pushing_low) then
        s.integrator_state_ + s.i_gain_ * error * ts
      else
        s.integrator_state_
  (control_clamped,
    { s with
      integrator_state_ := clamp integrator_state s.integrator_min_ s.integrator_max_,
      previous_error_ := error,
      last_control_unclamped_ := control_unclamped,
      last_control_saturated_ := control_clamped })

/-- One call on the public interface of a `PID` object. -/
inductive Op where
  | setGains (proportional_gain integral_gain derivative_gain : ℚ)
  | setOutputSaturationLimits (output_min output_max : ℚ)
  | setIntegralStateLimits (integrator_min integrator_max : ℚ)
  | setAntiWindupGain (anti_windup_gain : ℚ)
  | reset (integrator_state previous_error : ℚ)
  | step (reference measurement ts : ℚ)

/-- The state after one call. -/
def apply (s : PID) : Op → PID
  | Op.setGains kp ki kd => s.setGains kp ki kd
  | Op.setOutputSaturationLimits a b => s.setOutputSaturationLimits a b
  | Op.setIntegralStateLimits a b => s.setIntegralStateLimits a b
  | Op.setAntiWindupGain k => s.setAntiWindupGain k
  | Op.reset i p => s.reset i p
  | Op.step r m ts => (s.step r m ts).2

/-- The states reachable from construction by any sequence of setter, `reset`
and `step` calls. -/
inductive Reachable : PID → Prop
  | newDefault : Reachable newDefault
  | new (kp ki kd output_min output_max anti_windup_gain : ℚ) :
      Reachable (new kp ki kd output_min output_max anti_windup_gain)
  | call (s : PID) (op : Op) : Reachable s → Reachable (s.apply op)

/-- The unclamped command of the specification, for a call of `step` on state
`s`: `Kp*e + I + Kd*(e - prevE)/dt` with `e = reference - measurement` and `dt`
the time step in force (after the guard). -/
def specUnclamped (s : PID) (reference measurement ts : ℚ) : ℚ :=
  s.p_gain_ * (reference - measurement) + s.integrator_state_ +
    s.d_gain_ * ((reference - measurement) - s.previous_error_) / guardTs ts

end PID

/-! ## Motoron.h / Motoron.cpp -/

/-- The function `std::min<int16_t>(a, b)`, which is `(b < a) ? b : a`. -/
def stdMinInt16 (a b : Int) : Int := if b < a then b else a

/-- The function `std::max<int16_t>(a, b)`, which is `(a < b) ? b : a`. -/
def stdMaxInt16 (a b : Int) : Int := if a < b then b else a

/-- The driver object: its `enabled_` flag and the frames handed to
`writeBytes` so far, oldest first (every write is taken to succeed; a failed
write throws). The file descriptor and the bus address are not modelled. -/
structure Motoron where
  /-- the field `bool enabled_` -/
  enabled_ : Bool
  /-- the byte frames written to the bus, oldest first -/
  bus : List (List Nat)
  deriving DecidableEq, Repr

namespace Motoron

/-- The constant `CMD_SET_PROTOCOL_OPTIONS`. -/
def CMD_SET_PROTOCOL_OPTIONS : Nat := 0x8B

/-- The constant `CMD_CLEAR_LATCHED_STATUS_FLAGS`. -/
def CMD_CLEAR_LATCHED_STATUS_FLAGS : Nat := 0xA9

/-- The constant `CMD_SET_SPEED_NOW`. -/
def CMD_SET_SPEED_NOW : Nat := 0xD2

/-- The constructor `Motoron::Motoron`: disabled, nothing written yet. -/
def new : Motoron := { enabled_ := false, bus := [] }

/-- The method `Motoron::writeBytes`: one frame goes out on the bus. -/
def writeBytes (d : Motoron) (data : List Nat) : Motoron :=
  { d with bus := d.bus ++ [data] }

/-- The method `Motoron::initBasic`. -/
def initBasic (d : Motoron) : Motoron :=
  let d1 := d.writeBytes [CMD_SET_PROTOCOL_OPTIONS, 0x04]
  let d2 := d1.writeBytes [CMD_CLEAR_LATCHED_STATUS_FLAGS, 0x00, 0x04]
  { d2 with enabled_ := true }

/-- The four bytes `cmd[0..3]` that `setSpeed` builds from the channel id and
the already clamped speed: `motor & 0x7F` is `motor % 128`, `speed & 0x7F` is
`speed % 128` and `(speed >> 7) & 0x7F` is `(speed / 128) % 128` (arithmetic
shift, floor division) on two's-complement integers. -/
def speedFrame (motor : Nat) (speed : Int) : List Nat :=
  [CMD_SET_SPEED_NOW, motor % 128, (speed % 128).toNat, ((speed / 128) % 128).toNat]

/-- The method `Motoron::setSpeed`. -/
def setSpeed (d : Motoron) (motor : Nat) (speed : Int) : Motoron :=
  if !d.enabled_ then d
  else
    let speed := stdMaxInt16 (-800) (stdMinInt16 800 speed)
    d.writeBytes (speedFrame motor speed)

/-- The method `Motoron::coastAll`: `0xE2` followed by seven zero bytes. -/
def coastAll (d : Motoron) : Motoron :=
  d.writeBytes [0xE2, 0, 0, 0, 0, 0, 0, 0]

/-- The method `Motoron::enable`. -/
def enable (d : Motoron) (en : Bool) : Motoron :=
  let d1 := { d with enabled_ := en }
  if !en then d1.coastAll else d1

/-- The method `Motoron::isEnabled`. -/
def isEnabled (d : Motoron) : Bool := d.enabled_

/-- The signed speed a set-speed frame carries: bytes 2 and 3 read as a 14-bit
two's-complement number (low seven bits first). -/
def frameSpeed (frame : List Nat) : Int :=
  let v : Int := (frame.getD 2 0 : Nat) + 128 * (frame.getD 3 0 : Nat)
  if v < 8192 then v else v - 16384

end Motoron

/-! ## Motor.h / Motor.cpp -/

/-- The accessor `Encoder::count`. -/
def Encoder.count (e : Encoder) : Int := e.count_

/-- The accessor `Encoder::illegal`. -/
def Encoder.illegal (e : Encoder) : Nat := e.illegal_

/-- The conversion `static_cast<int16_t>` of a `double`: truncation toward
zero (the values converted here lie within the `int16_t` range). -/
def castInt16 (x : ℚ) : Int := if 0 ≤ x then Int.floor x else Int.ceil x

/-- The data members of `class Motor`, except the reference `driver_`: the
driver is shared between motors and is passed to each method that uses it. -/
structure Motor where
  /-- the member `Encoder encoder_` (mutated by its own worker thread) -/
  encoder_ : Encoder
  /-- the member `uint8_t motorId_` -/
  motorId_ : Nat
  /-- the member `PID pid_` -/
  pid_ : PID
  /-- the member `double counts_per_rev_` -/
  counts_per_rev_ : ℚ
  /-- the member `double gear_` -/
  gear_ : ℚ
  /-- the member `int32_t last_counts_` -/
  last_counts_ : Int
  /-- the member `double pos_rev_` -/
  pos_rev_ : ℚ
  /-- the member `double ref_pos_` -/
  ref_pos_ : ℚ
  /-- the member `double last_cmd_` -/
  last_cmd_ : ℚ
  /-- the member `bool enabled_` -/
  enabled_ : Bool
  /-- the member `double u_to_speed_` -/
  u_to_speed_ : ℚ

namespace Motor

/-- The constructor `Motor::Motor`, given the encoder object it constructs. -/
def new (encoder : Encoder) (motorId : Nat) : Motor :=
  { encoder_ := encoder, motorId_ := motorId, pid_ := PID.newDefault,
    counts_per_rev_ := 4096, gear_ := 1,
    last_counts_ := encoder.count,
    pos_rev_ := 0, ref_pos_ := 0, last_cmd_ := 0,
    enabled_ := false, u_to_speed_ := 800 }

/-- The method `Motor::setCountsPerRev`. -/
def setCountsPerRev (m : Motor) (cpr4x : ℚ) : Motor := { m with counts_per_rev_ := cpr4x }

/-- The method `Motor::setGear`. -/
def setGear (m : Motor) (gear : ℚ) : Motor := { m with gear_ := gear }

/-- The method `Motor::setPID`. -/
def setPID (m : Motor) (kp ki kd : ℚ) : Motor := { m with pid_ := m.pid_.setGains kp ki kd }

/-- The method `Motor::enable`, acting on the motor and on the shared driver. -/
def enable (m : Motor) (driver : Motoron) (en : Bool) : Motor × Motoron :=
  ({ m with enabled_ := en }, if !en then driver.coastAll else driver)

/-- The method `Motor::isEnabled`. -/
def isEnabled (m : Motor) : Bool := m.enabled_

/-- The method `Motor::setReference`. -/
def setReference (m : Motor) (rev : ℚ) : Motor := { m with ref_pos_ := rev }

/-- The method `Motor::position`. -/
def position (m : Motor) : ℚ := m.pos_rev_

/-- The method `Motor::command`. -/
def command (m : Motor) : ℚ := m.last_cmd_

/-- The method `Motor::update`, acting on the motor and on the shared driver.
The `int32_t` subtraction `c - last_counts_` is taken with two's-complement
wrap-around. The quotient `dc / counts_per_rev_ / gear_` is the rational one;
it stands for the quotient of doubles only for non-zero `counts_per_rev_` and
`gear_` (with a zero divisor the doubles give an infinity or NaN, which the
rationals do not have), and statements about its value carry that condition. -/
def update (m : Motor) (driver : Motoron) (dt_s : ℚ) : Motor × Motoron :=
  let c := m.encoder_.count
  let dc := wrapInt32 (c - m.last_counts_)
  let pos_rev := m.pos_rev_ + (dc : ℚ) / m.counts_per_rev_ / m.gear_
  let r := m.pid_.step m.ref_pos_ pos_rev dt_s
  let u := r.1
  let speed := castInt16 (stdMax (-800) (stdMin 800 (u * m.u_to_speed_)))
  ({ m with last_counts_ := c, pos_rev_ := pos_rev, pid_ := r.2, last_cmd_ := (speed : ℚ) },
    if m.enabled_ then driver.setSpeed m.motorId_ speed else driver.coastAll)

end Motor

/-! ## util.h / util.cpp -/

/-- The data members of `class ThreadMonitor` (without the name); time points
and durations are integer nanosecond counts. -/
structure ThreadMonitor where
  /-- the member `t_start_` -/
  t_start_ : Int
  /-- the member `uint64_t iters_` -/
  iters_ : Nat
  /-- the member `uint64_t misses_` -/
  misses_ : Nat
  /-- the member `int64_t worst_overrun_ns_` -/
  worst_overrun_ns_ : Int
  /-- the member `busy_ns_` -/
  busy_ns_ : Int
  deriving DecidableEq, Repr

namespace ThreadMonitor

/-- The constructor `ThreadMonitor::ThreadMonitor`. -/
def new : ThreadMonitor :=
  { t_start_ := 0, iters_ := 0, misses_ := 0, worst_overrun_ns_ := 0, busy_ns_ := 0 }

/-- The method `ThreadMonitor::begin_iter`; `now` is what `clock_t::now()`
returns. -/
def begin_iter (m : ThreadMonitor) (now : Int) : ThreadMonitor := { m with t_start_ := now }

/-- The loop `while (clock_t::now() < next_deadline) yield();` run against the
successive readings of the clock: it returns the readings not yet consumed, or
`none` when the given readings end before one reaches the deadline. -/
def spinWait (next_deadline : Int) : List Int → Option (List Int)
  | [] => none
  | now :: rest => if now < next_deadline then spinWait next_deadline rest else some rest

/-- The method `ThreadMonitor::end_iter`, run against the successive readings
of the clock: the first reading is `t_end`, the following ones are consumed by
the spin-wait. It returns the monitor and the readings not yet consumed, or
`none` when the given readings end before the method returns. -/
def end_iter (m : ThreadMonitor) (period : Int) : List Int → Option (ThreadMonitor × List Int)
  | [] => none
  | t_end :: rest =>
    let elapsed := t_end - m.t_start_
    let m1 : ThreadMonitor :=
      { m with busy_ns_ := m.busy_ns_ + elapsed, iters_ := (m.iters_ + 1) % 18446744073709551616 }
    let next_deadline := m.t_start_ + period
    if t_end > next_deadline then
      let m2 : ThreadMonitor := { m1 with misses_ := (m1.misses_ + 1) % 18446744073709551616 }
      let over := t_end - next_deadline
      if over > m2.worst_overrun_ns_ then
        some ({ m2 with worst_overrun_ns_ := over }, rest)
      else
        some (m2, rest)
    else
      match spinWait next_deadline rest with
      | none => none
      | some rest2 => some (m1, rest2)

end ThreadMonitor

/-- The method `ThreadMonitor::snapshot_reset`: the four values it hands back
through its reference parameters `(util_percent, iters, misses,
worst_overrun_ns)` and the monitor it leaves. -/
def ThreadMonitor.snapshot_reset (m : ThreadMonitor) : (ℚ × Nat × Nat × Int) × ThreadMonitor :=
  ((-1, m.iters_, m.misses_, m.worst_overrun_ns_),
    { m with iters_ := 0, misses_ := 0, worst_overrun_ns_ := 0, busy_ns_ := 0 })

/-! ## Vocabulary of the later claims -/

/-- The change of the true (unbounded) quadrature count when the states of
`samples` are sampled one after the other, starting from stored state `s0`:
the sum of the table entries along the path. -/
def countDelta (s0 : Fin 4) : List (Fin 4) → Int
  | [] => 0
  | x :: xs => qdelta s0 x + countDelta x xs

/-- The state stored after the states of `samples` were sampled one after the
other, starting from stored state `s0`. -/
def lastState (s0 : Fin 4) : List (Fin 4) → Fin 4
  | [] => s0
  | x :: xs => lastState x xs

/-! ## Theorems: Encoder -/

/-- C1: for every ordered pair of 2-bit states the looked-up delta is the entry
of the specification's table; it is +1 or -1 exactly when the two states differ
in one bit, and 0 otherwise. -/
theorem qdelta_matches_spec_table :
    ∀ old neu : Fin 4,
      qdelta old neu = specTable old neu ∧
      ((qdelta old neu = 1 ∨ qdelta old neu = -1) ↔ bitsDiffering old neu = 1) ∧
      (qdelta old neu = 0 ↔ bitsDiffering old neu ≠ 1) := by
  decide

/-- The illegal branch of the worker is taken exactly on the two diagonal
transitions. -/
theorem illegal_branch_iff :
    ∀ old neu : Fin 4, (qdelta old neu = 0 ∧ neu ≠ old) ↔ bitsDiffering old neu = 2 := by
  decide

/-- The three fields the quadrature step can touch, after `applyTransition`. -/
theorem applyTransition_fields (e : Encoder) (neu : Fin 4) :
    (e.applyTransition neu).state_ = neu ∧
    (e.applyTransition neu).illegal_ =
      (if bitsDiffering e.state_ neu = 2 then (e.illegal_ + 1) % 4294967296 else e.illegal_) ∧
    (e.applyTransition neu).count_ =
      (if qdelta e.state_ neu = 0 then e.count_ else wrapInt32 (e.count_ + qdelta e.state_ neu)) := by
  have hk := illegal_branch_iff e.state_ neu
  simp only [Encoder.applyTransition]
  by_cases h1 : qdelta e.state_ neu = 0 ∧ neu ≠ e.state_
  · have h2 : bitsDiffering e.state_ neu = 2 := hk.mp h1
    rw [if_pos h1, if_pos h2, if_pos h1.1]
    exact ⟨rfl, rfl, rfl⟩
  · have h2 : ¬ bitsDiffering e.state_ neu = 2 := fun h => h1 (hk.mpr h)
    rw [if_neg h1, if_neg h2]
    by_cases h3 : qdelta e.state_ neu = 0
    · rw [if_neg (not_not.mpr h3), if_pos h3]
      exact ⟨rfl, rfl, rfl⟩
    · rw [if_pos h3, if_neg h3]
      exact ⟨rfl, rfl, rfl⟩

/-- Storing a debounce timestamp touches neither counter nor the 2-bit state. -/
theorem setLastUs_fields (e : Encoder) (i : Fin 2) (t : Nat) :
    (e.setLastUs i t).state_ = e.state_ ∧ (e.setLastUs i t).illegal_ = e.illegal_ ∧
    (e.setLastUs i t).count_ = e.count_ ∧ (e.setLastUs i t).debounce_us_ = e.debounce_us_ := by
  unfold Encoder.setLastUs
  by_cases h : i = 0 <;> simp [h]

/-- A processed edge (debounce passed, both levels read) is the quadrature step
applied after the timestamp store. -/
theorem processEdge_processed (e : Encoder) (ev : EdgeEvent) (neu : Fin 4)
    (hdeb : e.debounced ev = false) (hread : readAB ev.va ev.vb = some neu) :
    e.processEdge ev = (e.setLastUs ev.i ev.now_us).applyTransition neu := by
  unfold Encoder.processEdge
  simp [hdeb, hread]

/-- A 32-bit unsigned increment always changes the value. -/
theorem uint32_succ_ne (n : Nat) : (n + 1) % 4294967296 ≠ n := by
  omega

/-- C2 (as amended): on a processed edge the illegal counter is incremented by
one modulo `2^32` if and only if the sampled state differs from the stored
state in both bits; in that case the position count is unchanged, and the
counter is `illegal + 1` exactly unless it stood at `2^32 - 1`, where it wraps
to 0; for every other pair the illegal counter is unchanged. -/
theorem processEdge_illegal_iff_diagonal (e : Encoder) (ev : EdgeEvent) (neu : Fin 4)
    (hdeb : e.debounced ev = false) (hread : readAB ev.va ev.vb = some neu) :
    ((e.processEdge ev).illegal_ = (e.illegal_ + 1) % 4294967296 ↔
        bitsDiffering e.state_ neu = 2) ∧
    (bitsDiffering e.state_ neu = 2 → (e.processEdge ev).count_ = e.count_) ∧
    (bitsDiffering e.state_ neu ≠ 2 → (e.processEdge ev).illegal_ = e.illegal_) ∧
    (bitsDiffering e.state_ neu = 2 → e.illegal_ + 1 < 4294967296 →
      (e.processEdge ev).illegal_ = e.illegal_ + 1) ∧
    (bitsDiffering e.state_ neu = 2 → e.illegal_ = 4294967295 →
      (e.processEdge ev).illegal_ = 0) := by
  rw [processEdge_processed e ev neu hdeb hread]
  obtain ⟨hs, hi, hc, _⟩ := setLastUs_fields e ev.i ev.now_us
  obtain ⟨_, hi2, hc2⟩ := applyTransition_fields (e.setLastUs ev.i ev.now_us) neu
  rw [hs, hi] at hi2
  rw [hs, hc] at hc2
  refine ⟨?_, ?_, ?_, ?_, ?_⟩
  rotate_left 3
  · intro h hlt
    rw [hi2, if_pos h]
    exact Nat.mod_eq_of_lt hlt
  · intro h hmax
    rw [hi2, if_pos h, hmax]
  · constructor
    · intro h
      by_contra hne
      rw [hi2, if_neg hne] at h
      exact uint32_succ_ne e.illegal_ h.symm
    · intro h
      rw [hi2, if_pos h]
  · intro h
    have hq : qdelta e.state_ neu = 0 := ((illegal_branch_iff e.state_ neu).mpr h).1
    rw [hc2, if_pos hq]
  · intro h
    rw [hi2, if_neg h]

/-- Witness for C2 (amended): stored state 00, an edge on channel A with both levels read
high (sampled state 11), debounce disabled: the illegal counter goes from 7 to
8 and the count stays 5. -/
theorem processEdge_illegal_iff_diagonal_witness :
    (Encoder.mk 5 7 0 0 0 0).debounced (EdgeEvent.mk 0 100 1 1) = false ∧
    readAB (EdgeEvent.mk 0 100 1 1).va (EdgeEvent.mk 0 100 1 1).vb = some 3 ∧
    (((Encoder.mk 5 7 0 0 0 0).processEdge (EdgeEvent.mk 0 100 1 1)).illegal_ =
        ((Encoder.mk 5 7 0 0 0 0).illegal_ + 1) % 4294967296 ↔
      bitsDiffering (Encoder.mk 5 7 0 0 0 0).state_ 3 = 2) ∧
    ((Encoder.mk 5 7 0 0 0 0).processEdge (EdgeEvent.mk 0 100 1 1)).count_ =
      (Encoder.mk 5 7 0 0 0 0).count_ :=
  ⟨by decide, by decide,
   (processEdge_illegal_iff_diagonal (Encoder.mk 5 7 0 0 0 0) (EdgeEvent.mk 0 100 1 1) 3
      (by decide) (by decide)).1,
   (processEdge_illegal_iff_diagonal (Encoder.mk 5 7 0 0 0 0) (EdgeEvent.mk 0 100 1 1) 3
      (by decide) (by decide)).2.1 (by decide)⟩

/-- C2 (counterexample to the claim as stated): illegal counter at `2^32 - 1`,
stored state 00, a processed edge sampled as 11 (both bits differ): the
counter becomes 0, not `2^32`. -/
theorem illegal_counter_wraps :
    (Encoder.mk 5 4294967295 0 0 0 0).debounced (EdgeEvent.mk 0 100 1 1) = false ∧
    readAB (EdgeEvent.mk 0 100 1 1).va (EdgeEvent.mk 0 100 1 1).vb = some 3 ∧
    bitsDiffering (Encoder.mk 5 4294967295 0 0 0 0).state_ 3 = 2 ∧
    ((Encoder.mk 5 4294967295 0 0 0 0).processEdge (EdgeEvent.mk 0 100 1 1)).illegal_ = 0 ∧
    ((Encoder.mk 5 4294967295 0 0 0 0).processEdge (EdgeEvent.mk 0 100 1 1)).illegal_ ≠
      (Encoder.mk 5 4294967295 0 0 0 0).illegal_ + 1 := by
  decide

/-- Wrapping is idempotent under further addition. -/
theorem wrapInt32_add (a b : Int) : wrapInt32 (wrapInt32 a + b) = wrapInt32 (a + b) := by
  unfold wrapInt32
  omega

/-- Values inside the `int32_t` range are fixed by the wrap. -/
theorem wrapInt32_of_range (a : Int) (hlo : -2147483648 ≤ a) (hhi : a < 2147483648) :
    wrapInt32 a = a := by
  unfold wrapInt32
  omega

/-- A legal step from a known stored state: the count moves by the table entry,
the illegal counter stays. -/
theorem applyTransition_legal (e : Encoder) (old neu : Fin 4) (d : Int) (hs : e.state_ = old)
    (hd : qdelta old neu = d) (hne : d ≠ 0) (hb : bitsDiffering old neu ≠ 2) :
    (e.applyTransition neu).state_ = neu ∧ (e.applyTransition neu).illegal_ = e.illegal_ ∧
    (e.applyTransition neu).count_ = wrapInt32 (e.count_ + d) := by
  obtain ⟨h1, h2, h3⟩ := applyTransition_fields e neu
  rw [hs] at h2 h3
  rw [if_neg hb] at h2
  rw [hd, if_neg hne] at h3
  exact ⟨h1, h2, h3⟩

/-- One clean cycle from stored state 00 adds four counts (wrapping) and ends
in state 00 without touching the illegal counter. -/
theorem applySamples_cleanCycle (e : Encoder) (h0 : e.state_ = 0) :
    (e.applySamples cleanCycle).state_ = 0 ∧
    (e.applySamples cleanCycle).illegal_ = e.illegal_ ∧
    (e.applySamples cleanCycle).count_ = wrapInt32 (e.count_ + 4) := by
  obtain ⟨s1, i1, c1⟩ := applyTransition_legal e 0 1 1 h0 (by decide) (by decide) (by decide)
  obtain ⟨s2, i2, c2⟩ :=
    applyTransition_legal (e.applyTransition 1) 1 3 1 s1 (by decide) (by decide) (by decide)
  obtain ⟨s3, i3, c3⟩ :=
    applyTransition_legal ((e.applyTransition 1).applyTransition 3) 3 2 1 s2
      (by decide) (by decide) (by decide)
  obtain ⟨s4, i4, c4⟩ :=
    applyTransition_legal (((e.applyTransition 1).applyTransition 3).applyTransition 2) 2 0 1 s3
      (by decide) (by decide) (by decide)
  have hrun : e.applySamples cleanCycle =
      (((e.applyTransition 1).applyTransition 3).applyTransition 2).applyTransition 0 := by
    simp only [Encoder.applySamples, cleanCycle, List.foldl_cons, List.foldl_nil]
  rw [hrun]
  refine ⟨s4, ?_, ?_⟩
  · rw [i4, i3, i2, i1]
  · rw [c4, c3, c2, c1]
    unfold wrapInt32
    omega

/-- Running a concatenation of sample lists is running them one after the
other. -/
theorem applySamples_append (e : Encoder) (xs ys : List (Fin 4)) :
    e.applySamples (xs ++ ys) = (e.applySamples xs).applySamples ys := by
  unfold Encoder.applySamples
  exact List.foldl_append _ _ _ _

/-- The state after `N` clean cycles from stored state 00. -/
theorem applySamples_cleanSequence (N : Nat) :
    ∀ e : Encoder, e.state_ = 0 → -2147483648 ≤ e.count_ → e.count_ < 2147483648 →
      (e.applySamples (cleanSequence N)).state_ = 0 ∧
      (e.applySamples (cleanSequence N)).illegal_ = e.illegal_ ∧
      (e.applySamples (cleanSequence N)).count_ = wrapInt32 (e.count_ + 4 * (N : Int)) := by
  induction N with
  | zero =>
    intro e h0 hlo hhi
    have h : e.applySamples (cleanSequence 0) = e := by
      simp only [Encoder.applySamples, cleanSequence, List.foldl_nil]
    rw [h, Nat.cast_zero, mul_zero, add_zero, wrapInt32_of_range e.count_ hlo hhi]
    exact ⟨h0, rfl, rfl⟩
  | succ n ih =>
    intro e h0 hlo hhi
    obtain ⟨s1, i1, c1⟩ := applySamples_cleanCycle e h0
    have hstep : e.applySamples (cleanSequence (n + 1)) =
        (e.applySamples cleanCycle).applySamples (cleanSequence n) := by
      rw [← applySamples_append]
      simp only [cleanSequence]
    have hlo1 : -2147483648 ≤ (e.applySamples cleanCycle).count_ := by
      rw [c1]; unfold wrapInt32; omega
    have hhi1 : (e.applySamples cleanCycle).count_ < 2147483648 := by
      rw [c1]; unfold wrapInt32; omega
    obtain ⟨s2, i2, c2⟩ := ih (e.applySamples cleanCycle) s1 hlo1 hhi1
    rw [hstep]
    refine ⟨s2, ?_, ?_⟩
    · rw [i2, i1]
    · rw [c2, c1, wrapInt32_add]
      congr 1
      push_cast
      ring

/-- C3 (as amended): from stored state 00 and a count `c` in the `int32_t`
range, `N` clean cycles 01, 11, 10, 00 leave the illegal counter unchanged and
the position count at `c + 4N` wrapped into the signed 32-bit range; the count
is exactly `c + 4N` whenever `c + 4N` does not exceed `2^31 - 1`. -/
theorem clean_cycles_count_wraps (e : Encoder) (N : Nat) (h0 : e.state_ = 0)
    (hlo : -2147483648 ≤ e.count_) (hhi : e.count_ < 2147483648) :
    (e.applySamples (cleanSequence N)).illegal_ = e.illegal_ ∧
    (e.applySamples (cleanSequence N)).count_ = wrapInt32 (e.count_ + 4 * (N : Int)) ∧
    (e.count_ + 4 * (N : Int) < 2147483648 →
      (e.applySamples (cleanSequence N)).count_ = e.count_ + 4 * (N : Int)) := by
  obtain ⟨_, hi, hc⟩ := applySamples_cleanSequence N e h0 hlo hhi
  refine ⟨hi, hc, ?_⟩
  intro hfit
  rw [hc]
  exact wrapInt32_of_range _ (by omega) hfit

/-- Witness for C3 (amended): three clean cycles from count 10 give count 22. -/
theorem clean_cycles_count_wraps_witness :
    (Encoder.mk 10 2 0 5 0 0).state_ = 0 ∧
    -2147483648 ≤ (Encoder.mk 10 2 0 5 0 0).count_ ∧
    (Encoder.mk 10 2 0 5 0 0).count_ < 2147483648 ∧
    ((Encoder.mk 10 2 0 5 0 0).applySamples (cleanSequence 3)).illegal_ =
      (Encoder.mk 10 2 0 5 0 0).illegal_ ∧
    ((Encoder.mk 10 2 0 5 0 0).applySamples (cleanSequence 3)).count_ =
      (Encoder.mk 10 2 0 5 0 0).count_ + 4 * ((3 : Nat) : Int) :=
  ⟨rfl, by decide, by decide,
   (clean_cycles_count_wraps (Encoder.mk 10 2 0 5 0 0) 3 rfl (by decide) (by decide)).1,
   (clean_cycles_count_wraps (Encoder.mk 10 2 0 5 0 0) 3 rfl (by decide) (by decide)).2.2
     (by decide)⟩

/-- C3 (counterexample to the claim as stated): from stored state 00 and count
`2^31 - 1`, one clean cycle leaves the count at `-2^31 + 3`, not at
`2^31 - 1 + 4`. -/
theorem clean_cycle_count_overflow :
    (Encoder.mk 2147483647 0 0 5 0 0).state_ = 0 ∧
    ((Encoder.mk 2147483647 0 0 5 0 0).applySamples (cleanSequence 1)).count_ = -2147483645 ∧
    ((Encoder.mk 2147483647 0 0 5 0 0).applySamples (cleanSequence 1)).count_ ≠
      2147483647 + 4 * ((1 : Nat) : Int) := by
  decide

/-! ## Theorems: PID -/

/-- With ordered bounds, `std::min` is the mathematical minimum. -/
theorem stdMin_eq_min (a b : ℚ) : stdMin a b = min a b := by
  unfold stdMin
  by_cases h : b < a
  · rw [if_pos h, min_eq_right h.le]
  · rw [if_neg h, min_eq_left (not_lt.mp h)]

/-- The function `std::max` is the mathematical maximum. -/
theorem stdMax_eq_max (a b : ℚ) : stdMax a b = max a b := by
  unfold stdMax
  by_cases h : a < b
  · rw [if_pos h, max_eq_right h.le]
  · rw [if_neg h, max_eq_left (not_lt.mp h)]

/-- The helper `clamp` is `max low (min value high)`. -/
theorem PID.clamp_eq (v lo hi : ℚ) : PID.clamp v lo hi = max lo (min v hi) := by
  unfold PID.clamp
  rw [stdMax_eq_max, stdMin_eq_min]

/-- With ordered bounds the clamped value lies within the bounds. -/
theorem PID.clamp_mem (v lo hi : ℚ) (h : lo ≤ hi) :
    lo ≤ PID.clamp v lo hi ∧ PID.clamp v lo hi ≤ hi := by
  rw [PID.clamp_eq]
  exact ⟨le_max_left _ _, max_le h (min_le_right _ _)⟩

/-- A value already within the bounds is returned unchanged. -/
theorem PID.clamp_of_mem (v lo hi : ℚ) (h1 : lo ≤ v) (h2 : v ≤ hi) : PID.clamp v lo hi = v := by
  rw [PID.clamp_eq, min_eq_left h2, max_eq_right h1]

/-- The command `step` returns is the clamp of the specification's unclamped
command; it is also what both diagnostics record. -/
theorem PID.step_command (s : PID) (r m ts : ℚ) :
    (s.step r m ts).1 = PID.clamp (s.specUnclamped r m ts) s.output_min_ s.output_max_ ∧
    (s.step r m ts).2.last_control_unclamped_ = s.specUnclamped r m ts ∧
    (s.step r m ts).2.last_control_saturated_ = (s.step r m ts).1 ∧
    (s.step r m ts).2.previous_error_ = r - m :=
  ⟨rfl, rfl, rfl, rfl⟩

/-- The configuration is not touched by `step`. -/
theorem PID.step_frame (s : PID) (r m ts : ℚ) :
    (s.step r m ts).2.p_gain_ = s.p_gain_ ∧ (s.step r m ts).2.i_gain_ = s.i_gain_ ∧
    (s.step r m ts).2.d_gain_ = s.d_gain_ ∧
    (s.step r m ts).2.output_min_ = s.output_min_ ∧
    (s.step r m ts).2.output_max_ = s.output_max_ ∧
    (s.step r m ts).2.integrator_min_ = s.integrator_min_ ∧
    (s.step r m ts).2.integrator_max_ = s.integrator_max_ ∧
    (s.step r m ts).2.anti_windup_gain_ = s.anti_windup_gain_ :=
  ⟨rfl, rfl, rfl, rfl, rfl, rfl, rfl, rfl⟩

/-- The integrator `step` leaves is a clamp to the integrator limits. -/
theorem PID.step_integrator_clamped (s : PID) (r m ts : ℚ) :
    ∃ v : ℚ, (s.step r m ts).2.integrator_state_ =
      PID.clamp v s.integrator_min_ s.integrator_max_ :=
  ⟨_, rfl⟩

/-- The output limits stored by `setOutputSaturationLimits`. -/
theorem PID.setOutputSaturationLimits_bounds (s : PID) (a b : ℚ) :
    (s.setOutputSaturationLimits a b).output_min_ = min a b ∧
    (s.setOutputSaturationLimits a b).output_max_ = max a b ∧
    (s.setOutputSaturationLimits a b).integrator_min_ = s.integrator_min_ ∧
    (s.setOutputSaturationLimits a b).integrator_max_ = s.integrator_max_ := by
  simp only [PID.setOutputSaturationLimits]
  split_ifs with h
  · exact ⟨(min_eq_right h.le).symm, (max_eq_left h.le).symm, rfl, rfl⟩
  · exact ⟨(min_eq_left (not_lt.mp h)).symm, (max_eq_right (not_lt.mp h)).symm, rfl, rfl⟩

/-- The integrator limits stored by `setIntegralStateLimits`. -/
theorem PID.setIntegralStateLimits_bounds (s : PID) (a b : ℚ) :
    (s.setIntegralStateLimits a b).integrator_min_ = min a b ∧
    (s.setIntegralStateLimits a b).integrator_max_ = max a b ∧
    (s.setIntegralStateLimits a b).output_min_ = s.output_min_ ∧
    (s.setIntegralStateLimits a b).output_max_ = s.output_max_ := by
  simp only [PID.setIntegralStateLimits]
  split_ifs with h
  · exact ⟨(min_eq_right h.le).symm, (max_eq_left h.le).symm, rfl, rfl⟩
  · exact ⟨(min_eq_left (not_lt.mp h)).symm, (max_eq_right (not_lt.mp h)).symm, rfl, rfl⟩

/-- The limits stored by the six-argument constructor. -/
theorem PID.new_bounds (kp ki kd a b aw : ℚ) :
    (PID.new kp ki kd a b aw).output_min_ = min a b ∧
    (PID.new kp ki kd a b aw).output_max_ = max a b ∧
    (PID.new kp ki kd a b aw).integrator_min_ = -1000000 ∧
    (PID.new kp ki kd a b aw).integrator_max_ = 1000000 := by
  simp only [PID.new]
  split_ifs with h
  · exact ⟨(min_eq_right h.le).symm, (max_eq_left h.le).symm, rfl, rfl⟩
  · exact ⟨(min_eq_left (not_lt.mp h)).symm, (max_eq_right (not_lt.mp h)).symm, rfl, rfl⟩

/-- Both pairs of limits are ordered in every reachable state. -/
theorem PID.reachable_bounds_ordered (s : PID) (h : s.Reachable) :
    s.output_min_ ≤ s.output_max_ ∧ s.integrator_min_ ≤ s.integrator_max_ := by
  induction h with
  | newDefault => constructor <;> norm_num [PID.newDefault]
  | new kp ki kd a b aw =>
    obtain ⟨h1, h2, h3, h4⟩ := PID.new_bounds kp ki kd a b aw
    rw [h1, h2, h3, h4]
    exact ⟨min_le_max, by norm_num⟩
  | call s op _ ih =>
    cases op with
    | setGains kp ki kd => exact ih
    | setOutputSaturationLimits a b =>
      obtain ⟨h1, h2, h3, h4⟩ := PID.setOutputSaturationLimits_bounds s a b
      have hcall : s.apply (PID.Op.setOutputSaturationLimits a b) =
          s.setOutputSaturationLimits a b := rfl
      rw [hcall, h1, h2, h3, h4]
      exact ⟨min_le_max, ih.2⟩
    | setIntegralStateLimits a b =>
      obtain ⟨h1, h2, h3, h4⟩ := PID.setIntegralStateLimits_bounds s a b
      have hcall : s.apply (PID.Op.setIntegralStateLimits a b) =
          s.setIntegralStateLimits a b := rfl
      rw [hcall, h1, h2, h3, h4]
      exact ⟨ih.1, min_le_max⟩
    | setAntiWindupGain k => exact ih
    | reset i p => exact ih
    | step r m ts => exact ih

/-- C4: in every state reachable from construction by setter, `reset` and
`step` calls, the command returned by `step` lies within the output limits in
force at that call. -/
theorem step_output_within_limits (s : PID) (h : s.Reachable) (r m ts : ℚ) :
    s.output_min_ ≤ (s.step r m ts).1 ∧ (s.step r m ts).1 ≤ s.output_max_ := by
  rw [(PID.step_command s r m ts).1]
  exact PID.clamp_mem _ _ _ (PID.reachable_bounds_ordered s h).1

/-- Witness for C4: a controller built with swapped limits, re-tuned, then
stepped twice. -/
theorem step_output_within_limits_witness :
    (((PID.new 10 40 (1 / 10) 1 (-1) 0).apply (PID.Op.setAntiWindupGain 2)).apply
        (PID.Op.step 1 0 (1 / 1000))).Reachable ∧
    ((((PID.new 10 40 (1 / 10) 1 (-1) 0).apply (PID.Op.setAntiWindupGain 2)).apply
        (PID.Op.step 1 0 (1 / 1000))).output_min_ ≤
      ((((PID.new 10 40 (1 / 10) 1 (-1) 0).apply (PID.Op.setAntiWindupGain 2)).apply
        (PID.Op.step 1 0 (1 / 1000))).step 1 0 (1 / 1000)).1 ∧
     ((((PID.new 10 40 (1 / 10) 1 (-1) 0).apply (PID.Op.setAntiWindupGain 2)).apply
        (PID.Op.step 1 0 (1 / 1000))).step 1 0 (1 / 1000)).1 ≤
      (((PID.new 10 40 (1 / 10) 1 (-1) 0).apply (PID.Op.setAntiWindupGain 2)).apply
        (PID.Op.step 1 0 (1 / 1000))).output_max_) :=
  ⟨PID.Reachable.call _ _ (PID.Reachable.call _ _ (PID.Reachable.new _ _ _ _ _ _)),
   step_output_within_limits _
     (PID.Reachable.call _ _ (PID.Reachable.call _ _ (PID.Reachable.new _ _ _ _ _ _))) 1 0
     (1 / 1000)⟩

/-- C5: in every state reachable from construction by setter, `reset` and
`step` calls, the integrator left by `step` lies within the integrator limits,
whichever anti-windup strategy was taken. -/
theorem step_integrator_within_limits (s : PID) (h : s.Reachable) (r m ts : ℚ) :
    (s.step r m ts).2.integrator_min_ ≤ (s.step r m ts).2.integrator_state_ ∧
    (s.step r m ts).2.integrator_state_ ≤ (s.step r m ts).2.integrator_max_ := by
  obtain ⟨v, hv⟩ := PID.step_integrator_clamped s r m ts
  obtain ⟨_, _, _, _, _, hmin, hmax, _⟩ := PID.step_frame s r m ts
  rw [hv, hmin, hmax]
  exact PID.clamp_mem _ _ _ (PID.reachable_bounds_ordered s h).2

/-- Witness for C5: narrowed integrator limits given in the wrong order, then a
step in the conditional-integration branch. -/
theorem step_integrator_within_limits_witness :
    ((PID.newDefault.apply (PID.Op.setGains 1 40 0)).apply
        (PID.Op.setIntegralStateLimits 10 5)).Reachable ∧
    ((((PID.newDefault.apply (PID.Op.setGains 1 40 0)).apply
        (PID.Op.setIntegralStateLimits 10 5)).step 1 0 1).2.integrator_min_ ≤
      (((PID.newDefault.apply (PID.Op.setGains 1 40 0)).apply
        (PID.Op.setIntegralStateLimits 10 5)).step 1 0 1).2.integrator_state_ ∧
     (((PID.newDefault.apply (PID.Op.setGains 1 40 0)).apply
        (PID.Op.setIntegralStateLimits 10 5)).step 1 0 1).2.integrator_state_ ≤
      (((PID.newDefault.apply (PID.Op.setGains 1 40 0)).apply
        (PID.Op.setIntegralStateLimits 10 5)).step 1 0 1).2.integrator_max_) :=
  ⟨PID.Reachable.call _ _ (PID.Reachable.call _ _ PID.Reachable.newDefault),
   step_integrator_within_limits _
     (PID.Reachable.call _ _ (PID.Reachable.call _ _ PID.Reachable.newDefault)) 1 0 1⟩

/-- C6: with ordered output limits and `dt > 0`, `step` returns
`Kp*e + I + Kd*(e - prevE)/dt` saturated to the output limits, where
`e = reference - measurement` and `I`, `prevE` are the values stored before the
call: the sum itself when it lies within the limits, the nearest limit when it
lies outside. -/
theorem step_returns_saturated_sum (s : PID) (r m ts : ℚ)
    (hb : s.output_min_ ≤ s.output_max_) (hts : 0 < ts) :
    (s.step r m ts).1 =
      max s.output_min_
        (min (s.p_gain_ * (r - m) + s.integrator_state_ +
          s.d_gain_ * ((r - m) - s.previous_error_) / ts) s.output_max_) ∧
    (s.output_min_ ≤ s.p_gain_ * (r - m) + s.integrator_state_ +
          s.d_gain_ * ((r - m) - s.previous_error_) / ts →
      s.p_gain_ * (r - m) + s.integrator_state_ +
          s.d_gain_ * ((r - m) - s.previous_error_) / ts ≤ s.output_max_ →
      (s.step r m ts).1 = s.p_gain_ * (r - m) + s.integrator_state_ +
          s.d_gain_ * ((r - m) - s.previous_error_) / ts) ∧
    (s.p_gain_ * (r - m) + s.integrator_state_ +
          s.d_gain_ * ((r - m) - s.previous_error_) / ts < s.output_min_ →
      (s.step r m ts).1 = s.output_min_) ∧
    (s.output_max_ < s.p_gain_ * (r - m) + s.integrator_state_ +
          s.d_gain_ * ((r - m) - s.previous_error_) / ts →
      (s.step r m ts).1 = s.output_max_) := by
  have hg : PID.guardTs ts = ts := by
    unfold PID.guardTs
    rw [if_neg (not_le.mpr hts)]
  have hu : s.specUnclamped r m ts = s.p_gain_ * (r - m) + s.integrator_state_ +
      s.d_gain_ * ((r - m) - s.previous_error_) / ts := by
    unfold PID.specUnclamped
    rw [hg]
  rw [(PID.step_command s r m ts).1, hu, PID.clamp_eq]
  refine ⟨rfl, ?_, ?_, ?_⟩
  · intro h1 h2
    rw [min_eq_left h2, max_eq_right h1]
  · intro h1
    rw [min_eq_left (h1.le.trans hb), max_eq_left h1.le]
  · intro h1
    rw [min_eq_right h1.le, max_eq_right hb]

/-- Witness for C6: `Kp = 10`, error 1, limits `[-1, 1]`: the sum 10 is above
the upper limit, and the command is the upper limit. -/
theorem step_returns_saturated_sum_witness :
    (PID.new 10 0 0 (-1) 1 0).output_min_ ≤ (PID.new 10 0 0 (-1) 1 0).output_max_ ∧
    (0 : ℚ) < 1 / 1000 ∧
    ((PID.new 10 0 0 (-1) 1 0).step 1 0 (1 / 1000)).1 =
      (PID.new 10 0 0 (-1) 1 0).output_max_ :=
  ⟨by decide, by norm_num,
   (step_returns_saturated_sum (PID.new 10 0 0 (-1) 1 0) 1 0 (1 / 1000)
      (by decide) (by norm_num)).2.2.2 (by norm_num [PID.new, PID.newDefault])⟩

/-- The integrator left by `step` in the conditional-integration branch when
the command pushes into the upper limit: the stored integrator, clamped. -/
theorem PID.step_integrator_pushing_high (s : PID) (r m ts : ℚ)
    (haw : ¬ s.anti_windup_gain_ > 0) (hsat : s.specUnclamped r m ts ≥ s.output_max_)
    (herr : r - m > 0) :
    (s.step r m ts).2.integrator_state_ =
      PID.clamp s.integrator_state_ s.integrator_min_ s.integrator_max_ := by
  have hsat1 : s.p_gain_ * (r - m) + s.integrator_state_ +
      s.d_gain_ * ((r - m) - s.previous_error_) / PID.guardTs ts ≥ s.output_max_ := hsat
  simp only [PID.step, if_neg haw, hsat1, herr, decide_True, Bool.and_self, Bool.true_or,
    Bool.not_true, Bool.false_eq_true, if_false]

/-- C7 (as amended): with `antiWindupGain = 0`, when the unclamped command is at
or above `outputMax` and the error is positive, the integrator after `step` is
its value before `step` clamped to the integrator limits; it equals its value
before `step` whenever that value lies within the integrator limits. -/
theorem conditional_integration_holds_integrator (s : PID) (r m ts : ℚ)
    (haw : s.anti_windup_gain_ = 0) (hsat : s.specUnclamped r m ts ≥ s.output_max_)
    (herr : r - m > 0) :
    (s.step r m ts).2.integrator_state_ =
      max s.integrator_min_ (min s.integrator_state_ s.integrator_max_) ∧
    (s.integrator_min_ ≤ s.integrator_state_ → s.integrator_state_ ≤ s.integrator_max_ →
      (s.step r m ts).2.integrator_state_ = s.integrator_state_) := by
  have h := PID.step_integrator_pushing_high s r m ts (by rw [haw]; exact lt_irrefl 0) hsat herr
  refine ⟨by rw [h, PID.clamp_eq], ?_⟩
  intro h1 h2
  rw [h, PID.clamp_of_mem _ _ _ h1 h2]

/-- Witness for C7 (amended): `Kp = 10`, error 1, limits `[-1, 1]`, integrator 0
within its default limits: the integrator stays 0. -/
theorem conditional_integration_holds_integrator_witness :
    (PID.new 10 40 0 (-1) 1 0).anti_windup_gain_ = 0 ∧
    (PID.new 10 40 0 (-1) 1 0).specUnclamped 1 0 1 ≥ (PID.new 10 40 0 (-1) 1 0).output_max_ ∧
    (1 : ℚ) - 0 > 0 ∧
    ((PID.new 10 40 0 (-1) 1 0).step 1 0 1).2.integrator_state_ =
      (PID.new 10 40 0 (-1) 1 0).integrator_state_ :=
  ⟨by decide, by norm_num [PID.new, PID.newDefault, PID.specUnclamped, PID.guardTs], by norm_num,
   (conditional_integration_holds_integrator (PID.new 10 40 0 (-1) 1 0) 1 0 1 (by decide)
      (by norm_num [PID.new, PID.newDefault, PID.specUnclamped, PID.guardTs])
      (by norm_num)).2
      (by norm_num [PID.new, PID.newDefault]) (by norm_num [PID.new, PID.newDefault])⟩

/-- C7 (counterexample to the claim as stated): after
`setIntegralStateLimits(5, 10)` on a fresh controller the stored integrator 0
lies below its limits; a step saturated high with positive error and
`antiWindupGain = 0` moves it to 5. -/
theorem conditional_integration_integrator_moves :
    ((PID.new 10 40 0 (-1) 1 0).setIntegralStateLimits 5 10).anti_windup_gain_ = 0 ∧
    ((PID.new 10 40 0 (-1) 1 0).setIntegralStateLimits 5 10).specUnclamped 1 0 1 ≥
      ((PID.new 10 40 0 (-1) 1 0).setIntegralStateLimits 5 10).output_max_ ∧
    (1 : ℚ) - 0 > 0 ∧
    ((PID.new 10 40 0 (-1) 1 0).setIntegralStateLimits 5 10).integrator_state_ = 0 ∧
    (((PID.new 10 40 0 (-1) 1 0).setIntegralStateLimits 5 10).step 1 0 1).2.integrator_state_ = 5 ∧
    (((PID.new 10 40 0 (-1) 1 0).setIntegralStateLimits 5 10).step 1 0 1).2.integrator_state_ ≠
      ((PID.new 10 40 0 (-1) 1 0).setIntegralStateLimits 5 10).integrator_state_ := by
  have hs : (PID.new 10 40 0 (-1) 1 0).setIntegralStateLimits 5 10 =
      { p_gain_ := 10, i_gain_ := 40, d_gain_ := 0, output_min_ := -1, output_max_ := 1,
        integrator_min_ := 5, integrator_max_ := 10, anti_windup_gain_ := 0,
        integrator_state_ := 0, previous_error_ := 0,
        last_control_unclamped_ := 0, last_control_saturated_ := 0 } := by
    norm_num [PID.new, PID.newDefault, PID.setIntegralStateLimits]
  rw [hs]
  norm_num [PID.step, PID.specUnclamped, PID.guardTs, PID.clamp, stdMax, stdMin]

/-- The time step in force after the guard is always positive when the given
one is not: it is `1e-6`. -/
theorem PID.guardTs_of_nonpos (ts : ℚ) (h : ts ≤ 0) : PID.guardTs ts = 1 / 1000000 := by
  unfold PID.guardTs
  rw [if_pos h]

/-- The guard leaves `1e-6` itself alone. -/
theorem PID.guardTs_epsilon : PID.guardTs (1 / 1000000) = 1 / 1000000 := by
  unfold PID.guardTs
  rw [if_neg (by norm_num)]

/-- C8: called with `dt <= 0`, `step` returns the same command and leaves the
same state (integrator, previous error, diagnostics and all) as called with
`dt = 1e-6`; the previous error becomes `reference - measurement`, and the
divisor of the derivative term is `1e-6`, which is positive. -/
theorem step_nonpositive_dt (s : PID) (r m ts : ℚ) (h : ts ≤ 0) :
    s.step r m ts = s.step r m (1 / 1000000) ∧
    (s.step r m ts).2.previous_error_ = r - m ∧
    PID.guardTs ts = 1 / 1000000 ∧ 0 < PID.guardTs ts := by
  have hg := PID.guardTs_of_nonpos ts h
  refine ⟨?_, rfl, hg, ?_⟩
  · simp only [PID.step, hg, PID.guardTs_epsilon]
  · rw [hg]
    norm_num

/-- Witness for C8: a step called with `dt = -3`. -/
theorem step_nonpositive_dt_witness :
    (-3 : ℚ) ≤ 0 ∧
    ((PID.new 10 40 (1 / 10) (-1) 1 0).step 1 0 (-3) =
        (PID.new 10 40 (1 / 10) (-1) 1 0).step 1 0 (1 / 1000000) ∧
     ((PID.new 10 40 (1 / 10) (-1) 1 0).step 1 0 (-3)).2.previous_error_ = 1 - 0 ∧
     PID.guardTs (-3) = 1 / 1000000 ∧ 0 < PID.guardTs (-3)) :=
  ⟨by norm_num, step_nonpositive_dt (PID.new 10 40 (1 / 10) (-1) 1 0) 1 0 (-3) (by norm_num)⟩

/-- C9: `setOutputSaturationLimits(a, b)` stores `min(a, b)` and `max(a, b)` as
the output limits, `setIntegralStateLimits(a, b)` stores them as the integrator
limits, the six-argument constructor stores its output limits the same way; so
both pairs of limits are ordered in every reachable state. -/
theorem limits_self_correcting :
    (∀ (s : PID) (a b : ℚ),
      (s.setOutputSaturationLimits a b).output_min_ = min a b ∧
      (s.setOutputSaturationLimits a b).output_max_ = max a b) ∧
    (∀ (s : PID) (a b : ℚ),
      (s.setIntegralStateLimits a b).integrator_min_ = min a b ∧
      (s.setIntegralStateLimits a b).integrator_max_ = max a b) ∧
    (∀ kp ki kd a b aw : ℚ,
      (PID.new kp ki kd a b aw).output_min_ = min a b ∧
      (PID.new kp ki kd a b aw).output_max_ = max a b) ∧
    (∀ s : PID, s.Reachable →
      s.output_min_ ≤ s.output_max_ ∧ s.integrator_min_ ≤ s.integrator_max_) := by
  refine ⟨?_, ?_, ?_, PID.reachable_bounds_ordered⟩
  · intro s a b
    exact ⟨(PID.setOutputSaturationLimits_bounds s a b).1,
      (PID.setOutputSaturationLimits_bounds s a b).2.1⟩
  · intro s a b
    exact ⟨(PID.setIntegralStateLimits_bounds s a b).1,
      (PID.setIntegralStateLimits_bounds s a b).2.1⟩
  · intro kp ki kd a b aw
    exact ⟨(PID.new_bounds kp ki kd a b aw).1, (PID.new_bounds kp ki kd a b aw).2.1⟩

/-- Witness for C9: both setters called with swapped arguments on a fresh
controller. -/
theorem limits_self_correcting_witness :
    ((PID.newDefault.apply (PID.Op.setOutputSaturationLimits 12 (-12))).apply
        (PID.Op.setIntegralStateLimits 3 (-3))).Reachable ∧
    ((PID.newDefault.apply (PID.Op.setOutputSaturationLimits 12 (-12))).apply
        (PID.Op.setIntegralStateLimits 3 (-3))).output_min_ ≤
      ((PID.newDefault.apply (PID.Op.setOutputSaturationLimits 12 (-12))).apply
        (PID.Op.setIntegralStateLimits 3 (-3))).output_max_ ∧
    ((PID.newDefault.apply (PID.Op.setOutputSaturationLimits 12 (-12))).apply
        (PID.Op.setIntegralStateLimits 3 (-3))).integrator_min_ ≤
      ((PID.newDefault.apply (PID.Op.setOutputSaturationLimits 12 (-12))).apply
        (PID.Op.setIntegralStateLimits 3 (-3))).integrator_max_ :=
  ⟨PID.Reachable.call _ _ (PID.Reachable.call _ _ PID.Reachable.newDefault),
   limits_self_correcting.2.2.2 _
     (PID.Reachable.call _ _ (PID.Reachable.call _ _ PID.Reachable.newDefault))⟩

/-- C10: `reset(s, p)` sets the integrator to `s` clamped to the integrator
limits, the previous error to `p`, both diagnostics to 0, and leaves the gains,
the output limits, the integrator limits and the anti-windup gain unchanged. -/
theorem reset_effect (s : PID) (i p : ℚ) :
    (s.reset i p).integrator_state_ = max s.integrator_min_ (min i s.integrator_max_) ∧
    (s.reset i p).previous_error_ = p ∧
    (s.reset i p).last_control_unclamped_ = 0 ∧
    (s.reset i p).last_control_saturated_ = 0 ∧
    (s.reset i p).p_gain_ = s.p_gain_ ∧
    (s.reset i p).i_gain_ = s.i_gain_ ∧
    (s.reset i p).d_gain_ = s.d_gain_ ∧
    (s.reset i p).output_min_ = s.output_min_ ∧
    (s.reset i p).output_max_ = s.output_max_ ∧
    (s.reset i p).integrator_min_ = s.integrator_min_ ∧
    (s.reset i p).integrator_max_ = s.integrator_max_ ∧
    (s.reset i p).anti_windup_gain_ = s.anti_windup_gain_ := by
  refine ⟨?_, rfl, rfl, rfl, rfl, rfl, rfl, rfl, rfl, rfl, rfl, rfl⟩
  rw [← PID.clamp_eq]
  rfl

/-! ## Theorems: debounce, read failures, zero -/

/-- A debounce-rejected edge only stores its timestamp. -/
theorem processEdge_rejected (e : Encoder) (ev : EdgeEvent) (hdeb : e.debounced ev = true) :
    e.processEdge ev = e.setLastUs ev.i ev.now_us := by
  unfold Encoder.processEdge
  rw [if_pos hdeb]

/-- An accepted edge whose level read fails only stores its timestamp. -/
theorem processEdge_read_failed (e : Encoder) (ev : EdgeEvent) (hdeb : e.debounced ev = false)
    (hread : readAB ev.va ev.vb = none) :
    e.processEdge ev = e.setLastUs ev.i ev.now_us := by
  unfold Encoder.processEdge
  simp [hdeb, hread]

/-- The timestamp stored for a line is the one just written. -/
theorem setLastUs_last_us (e : Encoder) (i : Fin 2) (t : Nat) :
    (e.setLastUs i t).last_us i = t := by
  unfold Encoder.setLastUs Encoder.last_us
  by_cases h : i = 0 <;> simp [h]

/-- The quadrature step touches neither debounce timestamp nor the debounce
interval. -/
theorem applyTransition_debounce_frame (e : Encoder) (neu : Fin 4) (i : Fin 2) :
    (e.applyTransition neu).last_us i = e.last_us i ∧
    (e.applyTransition neu).debounce_us_ = e.debounce_us_ := by
  simp only [Encoder.applyTransition, Encoder.last_us]
  split_ifs <;> exact ⟨rfl, rfl⟩

/-- Whatever happens to an edge event, its timestamp becomes the stored
timestamp of its line, and the debounce interval stays. -/
theorem processEdge_last_us (e : Encoder) (ev : EdgeEvent) :
    (e.processEdge ev).last_us ev.i = ev.now_us ∧
    (e.processEdge ev).debounce_us_ = e.debounce_us_ := by
  have hset := setLastUs_last_us e ev.i ev.now_us
  have hfr := (setLastUs_fields e ev.i ev.now_us).2.2.2
  cases hdeb : e.debounced ev with
  | true =>
    rw [processEdge_rejected e ev hdeb]
    exact ⟨hset, hfr⟩
  | false =>
    cases hread : readAB ev.va ev.vb with
    | none =>
      rw [processEdge_read_failed e ev hdeb hread]
      exact ⟨hset, hfr⟩
    | some neu =>
      rw [processEdge_processed e ev neu hdeb hread]
      obtain ⟨h1, h2⟩ := applyTransition_debounce_frame (e.setLastUs ev.i ev.now_us) neu ev.i
      rw [h1, h2]
      exact ⟨hset, hfr⟩

/-- The debounce test, spelled out. -/
theorem debounced_iff (e : Encoder) (ev : EdgeEvent) :
    e.debounced ev = true ↔
      e.debounce_us_ ≠ 0 ∧ subUInt64 ev.now_us (e.last_us ev.i) < e.debounce_us_ := by
  unfold Encoder.debounced
  simp

/-- For ordered timestamps the 64-bit difference is at most the true one, and
equal to it below `2^64`. -/
theorem subUInt64_of_le (a b : Nat) (h : a ≤ b) :
    subUInt64 b a ≤ b - a ∧ (b < 18446744073709551616 → subUInt64 b a = b - a) := by
  unfold subUInt64
  omega

/-- An edge closer than the debounce interval to the stored timestamp of its
line is rejected. -/
theorem debounced_of_close (e : Encoder) (ev : EdgeEvent) (hle : e.last_us ev.i ≤ ev.now_us)
    (hlt : ev.now_us - e.last_us ev.i < e.debounce_us_) : e.debounced ev = true := by
  rw [debounced_iff]
  have h := (subUInt64_of_le _ _ hle).1
  omega

/-- C11: two edge events on the same channel, the first accepted at `t1`, the
second at `t2` with `0 <= t2 - t1 < debounce_us` and `debounce_us > 0`:
processing the second leaves the position count, the illegal counter and the
2-bit state unchanged and sets the channel's stored timestamp to `t2`. -/
theorem second_edge_within_debounce (e : Encoder) (ev1 ev2 : EdgeEvent)
    (_hacc : e.debounced ev1 = false) (hch : ev2.i = ev1.i) (_hpos : 0 < e.debounce_us_)
    (hle : ev1.now_us ≤ ev2.now_us) (hlt : ev2.now_us - ev1.now_us < e.debounce_us_) :
    ((e.processEdge ev1).processEdge ev2).count_ = (e.processEdge ev1).count_ ∧
    ((e.processEdge ev1).processEdge ev2).illegal_ = (e.processEdge ev1).illegal_ ∧
    ((e.processEdge ev1).processEdge ev2).state_ = (e.processEdge ev1).state_ ∧
    ((e.processEdge ev1).processEdge ev2).last_us ev2.i = ev2.now_us := by
  obtain ⟨hl, hd⟩ := processEdge_last_us e ev1
  have hdeb : (e.processEdge ev1).debounced ev2 = true := by
    apply debounced_of_close
    · rw [hch, hl]; exact hle
    · rw [hch, hl, hd]; exact hlt
  rw [processEdge_rejected _ ev2 hdeb]
  obtain ⟨h1, h2, h3, _⟩ := setLastUs_fields (e.processEdge ev1) ev2.i ev2.now_us
  exact ⟨h3, h2, h1, setLastUs_last_us _ _ _⟩

/-- Witness for C11: debounce 5, an edge on channel A accepted at 100 (levels
read 1, 0), a second one at 103 with the levels back at 0, 0. -/
theorem second_edge_within_debounce_witness :
    (Encoder.mk 0 0 0 5 0 0).debounced (EdgeEvent.mk 0 100 1 0) = false ∧
    (EdgeEvent.mk 0 103 0 0).i = (EdgeEvent.mk 0 100 1 0).i ∧
    0 < (Encoder.mk 0 0 0 5 0 0).debounce_us_ ∧
    (EdgeEvent.mk 0 100 1 0).now_us ≤ (EdgeEvent.mk 0 103 0 0).now_us ∧
    (EdgeEvent.mk 0 103 0 0).now_us - (EdgeEvent.mk 0 100 1 0).now_us <
      (Encoder.mk 0 0 0 5 0 0).debounce_us_ ∧
    ((((Encoder.mk 0 0 0 5 0 0).processEdge (EdgeEvent.mk 0 100 1 0)).processEdge
        (EdgeEvent.mk 0 103 0 0)).count_ =
      ((Encoder.mk 0 0 0 5 0 0).processEdge (EdgeEvent.mk 0 100 1 0)).count_ ∧
     (((Encoder.mk 0 0 0 5 0 0).processEdge (EdgeEvent.mk 0 100 1 0)).processEdge
        (EdgeEvent.mk 0 103 0 0)).illegal_ =
      ((Encoder.mk 0 0 0 5 0 0).processEdge (EdgeEvent.mk 0 100 1 0)).illegal_ ∧
     (((Encoder.mk 0 0 0 5 0 0).processEdge (EdgeEvent.mk 0 100 1 0)).processEdge
        (EdgeEvent.mk 0 103 0 0)).state_ =
      ((Encoder.mk 0 0 0 5 0 0).processEdge (EdgeEvent.mk 0 100 1 0)).state_ ∧
     (((Encoder.mk 0 0 0 5 0 0).processEdge (EdgeEvent.mk 0 100 1 0)).processEdge
        (EdgeEvent.mk 0 103 0 0)).last_us (EdgeEvent.mk 0 103 0 0).i =
      (EdgeEvent.mk 0 103 0 0).now_us) :=
  ⟨by decide, by decide, by decide, by decide, by decide,
   second_edge_within_debounce (Encoder.mk 0 0 0 5 0 0) (EdgeEvent.mk 0 100 1 0)
     (EdgeEvent.mk 0 103 0 0) (by decide) (by decide) (by decide) (by decide) (by decide)⟩

/-- C12 (as amended): every edge event, rejected or not, leaves its timestamp
as the stored timestamp of its line; an edge is rejected by debounce if and
only if `debounce_us > 0` and its timestamp is less than `debounce_us` after
that stored timestamp, the timestamp of the previous edge event on the same
line; every other edge is processed by re-sampling both levels. So an edge
closer than `debounce_us` to its predecessor is rejected, however long ago the
last accepted edge was. -/
theorem debounce_compares_previous_edge (e : Encoder) (ev : EdgeEvent) :
    (e.processEdge ev).last_us ev.i = ev.now_us ∧
    (e.last_us ev.i ≤ ev.now_us → ev.now_us < 18446744073709551616 →
      (e.debounced ev = true ↔
        0 < e.debounce_us_ ∧ ev.now_us - e.last_us ev.i < e.debounce_us_)) ∧
    (e.debounced ev = true → e.processEdge ev = e.setLastUs ev.i ev.now_us) ∧
    (e.debounced ev = false → ∀ neu, readAB ev.va ev.vb = some neu →
      e.processEdge ev = (e.setLastUs ev.i ev.now_us).applyTransition neu) ∧
    (∀ ev2 : EdgeEvent, ev2.i = ev.i → ev.now_us ≤ ev2.now_us →
      ev2.now_us - ev.now_us < e.debounce_us_ →
      (e.processEdge ev).debounced ev2 = true) := by
  refine ⟨(processEdge_last_us e ev).1, ?_, processEdge_rejected e ev, ?_, ?_⟩
  · intro hle hlt
    rw [debounced_iff, (subUInt64_of_le _ _ hle).2 hlt]
    omega
  · intro hdeb neu hread
    exact processEdge_processed e ev neu hdeb hread
  · intro ev2 hch hle hlt
    obtain ⟨hl, hd⟩ := processEdge_last_us e ev
    apply debounced_of_close
    · rw [hch, hl]; exact hle
    · rw [hch, hl, hd]; exact hlt

/-- Witness for C12 (amended): debounce 5, stored timestamp 100: an edge at 103
is rejected, and after it an edge at 106 is rejected too. -/
theorem debounce_compares_previous_edge_witness :
    (Encoder.mk 0 0 0 5 100 0).last_us (EdgeEvent.mk 0 103 0 0).i ≤
      (EdgeEvent.mk 0 103 0 0).now_us ∧
    (EdgeEvent.mk 0 103 0 0).now_us < 18446744073709551616 ∧
    ((Encoder.mk 0 0 0 5 100 0).debounced (EdgeEvent.mk 0 103 0 0) = true ↔
      0 < (Encoder.mk 0 0 0 5 100 0).debounce_us_ ∧
      (EdgeEvent.mk 0 103 0 0).now_us -
          (Encoder.mk 0 0 0 5 100 0).last_us (EdgeEvent.mk 0 103 0 0).i <
        (Encoder.mk 0 0 0 5 100 0).debounce_us_) ∧
    ((Encoder.mk 0 0 0 5 100 0).processEdge (EdgeEvent.mk 0 103 0 0)).debounced
      (EdgeEvent.mk 0 106 0 0) = true :=
  ⟨by decide, by decide,
   (debounce_compares_previous_edge (Encoder.mk 0 0 0 5 100 0) (EdgeEvent.mk 0 103 0 0)).2.1
     (by decide) (by decide),
   (debounce_compares_previous_edge (Encoder.mk 0 0 0 5 100 0)
     (EdgeEvent.mk 0 103 0 0)).2.2.2.2 (EdgeEvent.mk 0 106 0 0) (by decide) (by decide)
     (by decide)⟩

/-- C12 (counterexample to the claim as stated): debounce 5; on channel A an
edge at 100 is accepted (state 00 -> 10, count -1), an edge at 103 is rejected,
and an edge at 106 with both levels read low is rejected as well, although it
comes 6 >= 5 microseconds after the last accepted edge: the state stays 10 and
the count -1, where processing it would have given state 00 and count 0. -/
theorem edge_after_debounce_of_last_accepted_rejected :
    (Encoder.mk 0 0 0 5 0 0).debounced (EdgeEvent.mk 0 100 1 0) = false ∧
    ((Encoder.mk 0 0 0 5 0 0).processEdge (EdgeEvent.mk 0 100 1 0)).debounced
      (EdgeEvent.mk 0 103 0 0) = true ∧
    ¬ ((EdgeEvent.mk 0 106 0 0).now_us - (EdgeEvent.mk 0 100 1 0).now_us <
        (Encoder.mk 0 0 0 5 0 0).debounce_us_) ∧
    (((Encoder.mk 0 0 0 5 0 0).processEdge (EdgeEvent.mk 0 100 1 0)).processEdge
      (EdgeEvent.mk 0 103 0 0)).debounced (EdgeEvent.mk 0 106 0 0) = true ∧
    ((((Encoder.mk 0 0 0 5 0 0).processEdge (EdgeEvent.mk 0 100 1 0)).processEdge
      (EdgeEvent.mk 0 103 0 0)).processEdge (EdgeEvent.mk 0 106 0 0)).state_ = 2 ∧
    ((((Encoder.mk 0 0 0 5 0 0).processEdge (EdgeEvent.mk 0 100 1 0)).processEdge
      (EdgeEvent.mk 0 103 0 0)).processEdge (EdgeEvent.mk 0 106 0 0)).count_ = -1 ∧
    (((Encoder.mk 0 0 0 5 0 0).processEdge (EdgeEvent.mk 0 100 1 0)).applyTransition 0).count_
      = 0 := by
  decide

/-- The function `readAB` fails exactly when one of the two level reads is
negative. -/
theorem readAB_eq_none_iff (va vb : Int) : readAB va vb = none ↔ (va < 0 ∨ vb < 0) := by
  unfold readAB
  by_cases h : va < 0 ∨ vb < 0
  · simp [h]
  · simp [h]

/-- C13: processing an edge whose level re-sample fails (either read returns a
negative value) leaves the position count, the illegal counter and the stored
2-bit state unchanged. -/
theorem read_failure_drops_edge (e : Encoder) (ev : EdgeEvent) (hfail : ev.va < 0 ∨ ev.vb < 0) :
    (e.processEdge ev).count_ = e.count_ ∧ (e.processEdge ev).illegal_ = e.illegal_ ∧
    (e.processEdge ev).state_ = e.state_ := by
  have hread : readAB ev.va ev.vb = none := (readAB_eq_none_iff _ _).mpr hfail
  obtain ⟨h1, h2, h3, _⟩ := setLastUs_fields e ev.i ev.now_us
  cases hdeb : e.debounced ev with
  | true =>
    rw [processEdge_rejected e ev hdeb]
    exact ⟨h3, h2, h1⟩
  | false =>
    rw [processEdge_read_failed e ev hdeb hread]
    exact ⟨h3, h2, h1⟩

/-- Witness for C13: debounce passes, the read of line B returns -1. -/
theorem read_failure_drops_edge_witness :
    ((EdgeEvent.mk 1 100 1 (-1)).va < 0 ∨ (EdgeEvent.mk 1 100 1 (-1)).vb < 0) ∧
    (Encoder.mk 7 3 2 5 0 0).debounced (EdgeEvent.mk 1 100 1 (-1)) = false ∧
    (((Encoder.mk 7 3 2 5 0 0).processEdge (EdgeEvent.mk 1 100 1 (-1))).count_ =
        (Encoder.mk 7 3 2 5 0 0).count_ ∧
     ((Encoder.mk 7 3 2 5 0 0).processEdge (EdgeEvent.mk 1 100 1 (-1))).illegal_ =
        (Encoder.mk 7 3 2 5 0 0).illegal_ ∧
     ((Encoder.mk 7 3 2 5 0 0).processEdge (EdgeEvent.mk 1 100 1 (-1))).state_ =
        (Encoder.mk 7 3 2 5 0 0).state_) :=
  ⟨by decide, by decide,
   read_failure_drops_edge (Encoder.mk 7 3 2 5 0 0) (EdgeEvent.mk 1 100 1 (-1)) (by decide)⟩

/-- From a zero count the wrapped sum with a table entry is the entry. -/
theorem wrapInt32_zero_add_qdelta :
    ∀ old neu : Fin 4, wrapInt32 (0 + qdelta old neu) = qdelta old neu := by
  decide

/-- C14: `zero()` sets the position count and the illegal counter to 0 and
leaves the stored 2-bit state (and the debounce data) unchanged; the next
processed edge is decoded against the phase stored before the call: the count
becomes the table entry for (old phase, new sample) and the illegal counter
becomes 1 exactly on a diagonal transition from the old phase. -/
theorem zero_keeps_phase (e : Encoder) :
    e.zero.count_ = 0 ∧ e.zero.illegal_ = 0 ∧ e.zero.state_ = e.state_ ∧
    e.zero.debounce_us_ = e.debounce_us_ ∧ e.zero.last_a_us = e.last_a_us ∧
    e.zero.last_b_us = e.last_b_us ∧
    (∀ (ev : EdgeEvent) (neu : Fin 4), e.zero.debounced ev = false →
      readAB ev.va ev.vb = some neu →
      (e.zero.processEdge ev).state_ = neu ∧
      (e.zero.processEdge ev).count_ = qdelta e.state_ neu ∧
      (e.zero.processEdge ev).illegal_ = (if bitsDiffering e.state_ neu = 2 then 1 else 0)) := by
  refine ⟨rfl, rfl, rfl, rfl, rfl, rfl, ?_⟩
  intro ev neu hdeb hread
  rw [processEdge_processed e.zero ev neu hdeb hread]
  obtain ⟨hs, hi, hc, _⟩ := setLastUs_fields e.zero ev.i ev.now_us
  obtain ⟨h1, h2, h3⟩ := applyTransition_fields (e.zero.setLastUs ev.i ev.now_us) neu
  rw [hs, hi] at h2
  rw [hs, hc] at h3
  have hz : e.zero.state_ = e.state_ := rfl
  have hzi : e.zero.illegal_ = 0 := rfl
  have hzc : e.zero.count_ = 0 := rfl
  rw [hz, hzi] at h2
  rw [hz, hzc] at h3
  refine ⟨h1, ?_, ?_⟩
  · rw [h3]
    by_cases hq : qdelta e.state_ neu = 0
    · rw [if_pos hq, hq]
    · rw [if_neg hq, wrapInt32_zero_add_qdelta]
  · rw [h2]

/-- Witness for C14: count 41, illegal 3, phase 01; after `zero()` an edge
sampled as 11 counts +1 from 0. -/
theorem zero_keeps_phase_witness :
    (Encoder.mk 41 3 1 5 0 0).zero.debounced (EdgeEvent.mk 0 100 1 1) = false ∧
    readAB (EdgeEvent.mk 0 100 1 1).va (EdgeEvent.mk 0 100 1 1).vb = some 3 ∧
    (((Encoder.mk 41 3 1 5 0 0).zero.processEdge (EdgeEvent.mk 0 100 1 1)).state_ = 3 ∧
     ((Encoder.mk 41 3 1 5 0 0).zero.processEdge (EdgeEvent.mk 0 100 1 1)).count_ =
       qdelta (Encoder.mk 41 3 1 5 0 0).state_ 3 ∧
     ((Encoder.mk 41 3 1 5 0 0).zero.processEdge (EdgeEvent.mk 0 100 1 1)).illegal_ =
       (if bitsDiffering (Encoder.mk 41 3 1 5 0 0).state_ 3 = 2 then 1 else 0)) :=
  ⟨by decide, by decide,
   (zero_keeps_phase (Encoder.mk 41 3 1 5 0 0)).2.2.2.2.2.2 (EdgeEvent.mk 0 100 1 1) 3
     (by decide) (by decide)⟩

/-! ## Theorems: Motoron and Motor -/

/-- The function `std::min<int16_t>` is the minimum. -/
theorem stdMinInt16_eq_min (a b : Int) : stdMinInt16 a b = min a b := by
  unfold stdMinInt16
  by_cases h : b < a
  · rw [if_pos h, min_eq_right h.le]
  · rw [if_neg h, min_eq_left (not_lt.mp h)]

/-- The function `std::max<int16_t>` is the maximum. -/
theorem stdMaxInt16_eq_max (a b : Int) : stdMaxInt16 a b = max a b := by
  unfold stdMaxInt16
  by_cases h : a < b
  · rw [if_pos h, max_eq_right h.le]
  · rw [if_neg h, max_eq_left (not_lt.mp h)]

/-- The two payload bytes of a set-speed frame give back a speed within
`[-800, 800]`. -/
theorem Motoron.frameSpeed_speedFrame (motor : Nat) (c : Int) (hlo : -800 ≤ c) (hhi : c ≤ 800) :
    Motoron.frameSpeed (Motoron.speedFrame motor c) = c := by
  simp only [Motoron.frameSpeed, Motoron.speedFrame, List.getD_cons_succ, List.getD_cons_zero]
  split_ifs with h <;> omega

/-- Truncation toward zero keeps a value within integer bounds around zero. -/
theorem castInt16_bounds (x : ℚ) (lo hi : Int) (hlo : (lo : ℚ) ≤ x) (hhi : x ≤ (hi : ℚ))
    (h0 : lo ≤ 0) (h1 : 0 ≤ hi) : lo ≤ castInt16 x ∧ castInt16 x ≤ hi := by
  unfold castInt16
  by_cases hx : 0 ≤ x
  · rw [if_pos hx]
    refine ⟨h0.trans (Int.floor_nonneg.mpr hx), ?_⟩
    have h := (Int.floor_le x).trans hhi
    exact_mod_cast h
  · rw [if_neg hx]
    have hx0 : x ≤ ((0 : Int) : ℚ) := by
      rw [Int.cast_zero]
      exact (not_le.mp hx).le
    refine ⟨?_, (Int.ceil_le.mpr hx0).trans h1⟩
    have h := hlo.trans (Int.le_ceil x)
    exact_mod_cast h

/-- The conversion `castInt16` drops the fractional part: the result lies
between zero and the value, less than one away from the value. -/
theorem castInt16_truncates (x : ℚ) :
    (0 ≤ x → ((castInt16 x : Int) : ℚ) ≤ x ∧ x < ((castInt16 x : Int) : ℚ) + 1) ∧
    (x < 0 → x ≤ ((castInt16 x : Int) : ℚ) ∧ ((castInt16 x : Int) : ℚ) < x + 1) := by
  unfold castInt16
  constructor
  · intro hx
    rw [if_pos hx]
    exact ⟨Int.floor_le x, Int.lt_floor_add_one x⟩
  · intro hx
    rw [if_neg (not_le.mpr hx)]
    exact ⟨Int.le_ceil x, Int.ceil_lt_add_one x⟩

/-- The saturation `std::max(-800.0, std::min(800.0, x))` lies within
`[-800, 800]` and is `max (-800) (min x 800)`. -/
theorem saturate800 (x : ℚ) :
    stdMax (-800) (stdMin 800 x) = max (-800) (min x 800) ∧
    (-800 : ℚ) ≤ stdMax (-800) (stdMin 800 x) ∧ stdMax (-800) (stdMin 800 x) ≤ 800 := by
  rw [stdMax_eq_max, stdMin_eq_min, min_comm]
  exact ⟨rfl, le_max_left _ _, max_le (by norm_num) (min_le_right _ _)⟩

/-- The fields written by `Motor::update`, and the call it makes on the
driver. -/
theorem Motor.update_eq (m : Motor) (driver : Motoron) (dt : ℚ) :
    (m.update driver dt).1.last_counts_ = m.encoder_.count_ ∧
    (m.update driver dt).1.pos_rev_ =
      m.pos_rev_ + ((wrapInt32 (m.encoder_.count_ - m.last_counts_) : Int) : ℚ) /
        m.counts_per_rev_ / m.gear_ ∧
    (m.update driver dt).1.pid_ =
      (m.pid_.step m.ref_pos_ (m.update driver dt).1.pos_rev_ dt).2 ∧
    (m.update driver dt).1.last_cmd_ =
      ((castInt16 (stdMax (-800) (stdMin 800
        ((m.pid_.step m.ref_pos_ (m.update driver dt).1.pos_rev_ dt).1 * m.u_to_speed_))) : Int) : ℚ) ∧
    (m.update driver dt).2 =
      (if m.enabled_ then
        driver.setSpeed m.motorId_ (castInt16 (stdMax (-800) (stdMin 800
          ((m.pid_.step m.ref_pos_ (m.update driver dt).1.pos_rev_ dt).1 * m.u_to_speed_))))
      else driver.coastAll) ∧
    (m.update driver dt).1.u_to_speed_ = m.u_to_speed_ ∧
    (m.update driver dt).1.enabled_ = m.enabled_ ∧
    (m.update driver dt).1.motorId_ = m.motorId_ ∧
    (m.update driver dt).1.ref_pos_ = m.ref_pos_ :=
  ⟨rfl, rfl, rfl, rfl, rfl, rfl, rfl, rfl, rfl⟩

/-- C15: for non-zero `countsPerRev` and `gearRatio`, `update` reads the
encoder count `c`, adds `(c - lastCount) / countsPerRev / gearRatio` to the
accumulated position (the difference being the `int32_t` one, which is
`c - lastCount` itself whenever that fits 32 bits; the amount added, times
`gearRatio` times `countsPerRev`, is that difference), sets `lastCount` to
`c`, and runs the PID step with the stored reference and the updated position
as measurement: the PID state left is that of this step, and its previous
error is `reference - updated position`. -/
theorem update_integrates_then_steps (m : Motor) (driver : Motoron) (dt : ℚ)
    (hcpr : m.counts_per_rev_ ≠ 0) (hgear : m.gear_ ≠ 0) :
    (m.update driver dt).1.last_counts_ = m.encoder_.count ∧
    (m.update driver dt).1.pos_rev_ =
      m.pos_rev_ + ((wrapInt32 (m.encoder_.count - m.last_counts_) : Int) : ℚ) /
        m.counts_per_rev_ / m.gear_ ∧
    ((m.update driver dt).1.pos_rev_ - m.pos_rev_) * m.gear_ * m.counts_per_rev_ =
      ((wrapInt32 (m.encoder_.count - m.last_counts_) : Int) : ℚ) ∧
    (-2147483648 ≤ m.encoder_.count - m.last_counts_ →
      m.encoder_.count - m.last_counts_ < 2147483648 →
      (m.update driver dt).1.pos_rev_ =
        m.pos_rev_ + ((m.encoder_.count - m.last_counts_ : Int) : ℚ) /
          m.counts_per_rev_ / m.gear_) ∧
    (m.update driver dt).1.pid_ =
      (m.pid_.step m.ref_pos_
        (m.pos_rev_ + ((wrapInt32 (m.encoder_.count - m.last_counts_) : Int) : ℚ) /
          m.counts_per_rev_ / m.gear_) dt).2 ∧
    (m.update driver dt).1.pid_.previous_error_ =
      m.ref_pos_ - (m.update driver dt).1.pos_rev_ ∧
    (m.update driver dt).1.last_cmd_ =
      ((castInt16 (stdMax (-800) (stdMin 800
        ((m.pid_.step m.ref_pos_
          (m.pos_rev_ + ((wrapInt32 (m.encoder_.count - m.last_counts_) : Int) : ℚ) /
            m.counts_per_rev_ / m.gear_) dt).1 * m.u_to_speed_))) :
          Int) : ℚ) := by
  obtain ⟨h1, h2, h3, h4, _⟩ := Motor.update_eq m driver dt
  have h2c : (m.update driver dt).1.pos_rev_ =
      m.pos_rev_ + ((wrapInt32 (m.encoder_.count - m.last_counts_) : Int) : ℚ) /
        m.counts_per_rev_ / m.gear_ := h2
  refine ⟨h1, h2c, ?_, ?_, ?_, ?_, ?_⟩
  · rw [h2c]
    field_simp
    ring
  · intro hlo hhi
    rw [h2]
    have hw : wrapInt32 (m.encoder_.count_ - m.last_counts_) =
        m.encoder_.count_ - m.last_counts_ := wrapInt32_of_range _ hlo hhi
    rw [hw]
    rfl
  · rw [h3, h2c]
  · rw [h3]
    exact (PID.step_command _ _ _ _).2.2.2
  · rw [h4, h2c]

/-- Witness for C15: count 4096 against a last count of 0 at 4096 counts per
revolution and gear 1: the position advances by one revolution. -/
theorem update_integrates_then_steps_witness :
    (Motor.mk (Encoder.mk 4096 0 0 5 0 0) 1 PID.newDefault 4096 1 0 0 0 0 true 800).counts_per_rev_ ≠ 0 ∧
    (Motor.mk (Encoder.mk 4096 0 0 5 0 0) 1 PID.newDefault 4096 1 0 0 0 0 true 800).gear_ ≠ 0 ∧
    -2147483648 ≤ (Motor.mk (Encoder.mk 4096 0 0 5 0 0) 1 PID.newDefault 4096 1 0 0 0 0 true 800).encoder_.count -
      (Motor.mk (Encoder.mk 4096 0 0 5 0 0) 1 PID.newDefault 4096 1 0 0 0 0 true 800).last_counts_ ∧
    (Motor.mk (Encoder.mk 4096 0 0 5 0 0) 1 PID.newDefault 4096 1 0 0 0 0 true 800).encoder_.count -
      (Motor.mk (Encoder.mk 4096 0 0 5 0 0) 1 PID.newDefault 4096 1 0 0 0 0 true 800).last_counts_ < 2147483648 ∧
    ((Motor.mk (Encoder.mk 4096 0 0 5 0 0) 1 PID.newDefault 4096 1 0 0 0 0 true 800).update Motoron.new
        (1 / 1000)).1.pos_rev_ =
      0 + (((4096 : Int) - 0 : Int) : ℚ) / 4096 / 1 :=
  ⟨by norm_num, by norm_num, by decide, by decide,
   (update_integrates_then_steps
      (Motor.mk (Encoder.mk 4096 0 0 5 0 0) 1 PID.newDefault 4096 1 0 0 0 0 true 800)
      Motoron.new (1 / 1000) (by norm_num) (by norm_num)).2.2.2.1 (by decide) (by decide)⟩

/-- C16: the constructor fixes the gain at 800 and `update` keeps it; with
that gain the command computed by `update` is the PID output times 800,
saturated to `[-800, 800]` and truncated toward zero to an integer (it lies
between zero and the saturated value, less than one away from it); it is
stored as the last command, and the last command and the speed handed to the
driver by an enabled motor lie within `[-800, 800]`. -/
theorem update_command_saturated (m : Motor) (driver : Motoron) (dt : ℚ) :
    (∀ (encoder : Encoder) (motorId : Nat), (Motor.new encoder motorId).u_to_speed_ = 800) ∧
    (m.update driver dt).1.u_to_speed_ = m.u_to_speed_ ∧
    (m.u_to_speed_ = 800 →
      (m.update driver dt).1.last_cmd_ =
        ((castInt16 (max (-800) (min
          ((m.pid_.step m.ref_pos_ (m.update driver dt).1.pos_rev_ dt).1 * 800) 800)) : Int) : ℚ)) ∧
    (-800 ≤ (m.update driver dt).1.last_cmd_ ∧ (m.update driver dt).1.last_cmd_ ≤ 800) ∧
    (m.enabled_ = true →
      ∃ speed : Int, -800 ≤ speed ∧ speed ≤ 800 ∧
        (m.update driver dt).1.last_cmd_ = (speed : ℚ) ∧
        (m.update driver dt).2 = driver.setSpeed m.motorId_ speed) ∧
    (∀ x : ℚ, x = stdMax (-800) (stdMin 800
        ((m.pid_.step m.ref_pos_ (m.update driver dt).1.pos_rev_ dt).1 * m.u_to_speed_)) →
      (0 ≤ x → (m.update driver dt).1.last_cmd_ ≤ x ∧ x < (m.update driver dt).1.last_cmd_ + 1) ∧
      (x < 0 → x ≤ (m.update driver dt).1.last_cmd_ ∧ (m.update driver dt).1.last_cmd_ < x + 1)) := by
  obtain ⟨_, _, _, h4, h5, h6, _⟩ := Motor.update_eq m driver dt
  obtain ⟨hs1, hs2, hs3⟩ :=
    saturate800 ((m.pid_.step m.ref_pos_ (m.update driver dt).1.pos_rev_ dt).1 * m.u_to_speed_)
  have hb := castInt16_bounds _ (-800) 800 (by push_cast; exact hs2) (by push_cast; exact hs3)
    (by decide) (by decide)
  refine ⟨fun _ _ => rfl, h6, ?_, ?_, ?_, ?_⟩
  · intro hg
    rw [h4, hs1, hg]
  · rw [h4]
    constructor
    · have h := hb.1
      exact_mod_cast h
    · have h := hb.2
      exact_mod_cast h
  · intro hen
    refine ⟨_, hb.1, hb.2, h4, ?_⟩
    rw [h5, if_pos hen]
  · intro x hx
    rw [h4, ← hx]
    exact castInt16_truncates x

/-- Witness for C16: a freshly constructed motor with `Kp = 10`, enabled,
reference one revolution. -/
theorem update_command_saturated_witness :
    (((Motor.new (Encoder.mk 0 0 0 5 0 0) 1).setPID 10 40 0).setReference 1).u_to_speed_ = 800 ∧
    ((((Motor.new (Encoder.mk 0 0 0 5 0 0) 1).setPID 10 40 0).setReference 1).update
        Motoron.new.initBasic (1 / 1000)).1.last_cmd_ =
      ((castInt16 (max (-800) (min
        (((((Motor.new (Encoder.mk 0 0 0 5 0 0) 1).setPID 10 40 0).setReference 1).pid_.step
          (((Motor.new (Encoder.mk 0 0 0 5 0 0) 1).setPID 10 40 0).setReference 1).ref_pos_
          ((((Motor.new (Encoder.mk 0 0 0 5 0 0) 1).setPID 10 40 0).setReference 1).update
            Motoron.new.initBasic (1 / 1000)).1.pos_rev_ (1 / 1000)).1 * 800) 800)) : Int) : ℚ) :=
  ⟨rfl,
   (update_command_saturated
      (((Motor.new (Encoder.mk 0 0 0 5 0 0) 1).setPID 10 40 0).setReference 1)
      Motoron.new.initBasic (1 / 1000)).2.2.1 rfl⟩

/-- C17: `enable(false)` sends the coast frame; an `update` of a disabled
motor sends the coast frame and no set-speed frame, whatever the driver log
and the computed command are (also on the tick right after `enable(false)`);
an `update` of an enabled motor makes exactly the call
`setSpeed(motorId, command)`, where the command is the output of the PID step
on the stored reference and the updated position, times the gain, saturated to
`[-800, 800]` and truncated; it is the command stored as last command, and for
non-zero `countsPerRev` and `gearRatio` the updated position is
`position + (c - lastCount) / countsPerRev / gearRatio`. -/
theorem disabled_motor_coasts (m : Motor) (driver : Motoron) (dt : ℚ) :
    ((m.enable driver false).2 = driver.coastAll ∧ (m.enable driver false).1.enabled_ = false) ∧
    (driver.coastAll.bus = driver.bus ++ [[0xE2, 0, 0, 0, 0, 0, 0, 0]] ∧
      driver.coastAll.enabled_ = driver.enabled_) ∧
    (m.enabled_ = false →
      (m.update driver dt).2 = driver.coastAll ∧
      (m.update driver dt).2.bus = driver.bus ++ [[0xE2, 0, 0, 0, 0, 0, 0, 0]]) ∧
    (∀ driver2 : Motoron, ((m.enable driver false).1.update driver2 dt).2 = driver2.coastAll) ∧
    (m.enabled_ = true →
      (m.update driver dt).2 =
        driver.setSpeed m.motorId_
          (castInt16 (max (-800) (min
            ((m.pid_.step m.ref_pos_ (m.update driver dt).1.pos_rev_ dt).1 * m.u_to_speed_)
            800))) ∧
      (m.update driver dt).1.last_cmd_ =
        ((castInt16 (max (-800) (min
            ((m.pid_.step m.ref_pos_ (m.update driver dt).1.pos_rev_ dt).1 * m.u_to_speed_)
            800)) : Int) : ℚ) ∧
      -800 ≤ castInt16 (max (-800) (min
            ((m.pid_.step m.ref_pos_ (m.update driver dt).1.pos_rev_ dt).1 * m.u_to_speed_)
            800)) ∧
      castInt16 (max (-800) (min
            ((m.pid_.step m.ref_pos_ (m.update driver dt).1.pos_rev_ dt).1 * m.u_to_speed_)
            800)) ≤ 800) ∧
    (m.enabled_ = true → m.counts_per_rev_ ≠ 0 → m.gear_ ≠ 0 →
      (m.update driver dt).2 =
        driver.setSpeed m.motorId_
          (castInt16 (max (-800) (min
            ((m.pid_.step m.ref_pos_
              (m.pos_rev_ + ((wrapInt32 (m.encoder_.count - m.last_counts_) : Int) : ℚ) /
                m.counts_per_rev_ / m.gear_) dt).1 * m.u_to_speed_)
            800)))) := by
  obtain ⟨_, h2, _, h4, h5, _⟩ := Motor.update_eq m driver dt
  obtain ⟨hs1, hs2, hs3⟩ :=
    saturate800 ((m.pid_.step m.ref_pos_ (m.update driver dt).1.pos_rev_ dt).1 * m.u_to_speed_)
  have hb := castInt16_bounds _ (-800) 800 (by push_cast; exact hs2) (by push_cast; exact hs3)
    (by decide) (by decide)
  have hcall : m.enabled_ = true →
      (m.update driver dt).2 =
        driver.setSpeed m.motorId_
          (castInt16 (max (-800) (min
            ((m.pid_.step m.ref_pos_ (m.update driver dt).1.pos_rev_ dt).1 * m.u_to_speed_)
            800))) := by
    intro hen
    rw [← hs1, h5, if_pos hen]
  refine ⟨⟨rfl, rfl⟩, ⟨rfl, rfl⟩, ?_, ?_, ?_, ?_⟩
  · intro hdis
    have h : (m.update driver dt).2 = driver.coastAll := by
      rw [h5, hdis]
      rfl
    exact ⟨h, by rw [h]; rfl⟩
  · intro driver2
    rw [(Motor.update_eq (m.enable driver false).1 driver2 dt).2.2.2.2.1]
    rfl
  · intro hen
    refine ⟨hcall hen, ?_, ?_, ?_⟩
    · rw [← hs1]
      exact h4
    · rw [← hs1]
      exact hb.1
    · rw [← hs1]
      exact hb.2
  · intro hen _ _
    have h := hcall hen
    rw [h2] at h
    exact h

/-- Witness for C17: a disabled motor whose last command was 500, on a driver
that has already sent a speed frame; and the same motor enabled, whose update
calls `setSpeed` with the command computed from its PID step. -/
theorem disabled_motor_coasts_witness :
    (Motor.mk (Encoder.mk 0 0 0 5 0 0) 2 (PID.new 10 40 0 (-1) 1 0) 4096 1 0 0 1 500 false 800).enabled_ = false ∧
    ((Motor.mk (Encoder.mk 0 0 0 5 0 0) 2 (PID.new 10 40 0 (-1) 1 0) 4096 1 0 0 1 500 false 800).update
        (Motoron.new.initBasic.setSpeed 2 500) (1 / 1000)).2 =
      (Motoron.new.initBasic.setSpeed 2 500).coastAll ∧
    ((Motor.mk (Encoder.mk 0 0 0 5 0 0) 2 (PID.new 10 40 0 (-1) 1 0) 4096 1 0 0 1 500 false 800).update
        (Motoron.new.initBasic.setSpeed 2 500) (1 / 1000)).2.bus =
      (Motoron.new.initBasic.setSpeed 2 500).bus ++ [[0xE2, 0, 0, 0, 0, 0, 0, 0]] ∧
    (Motor.mk (Encoder.mk 0 0 0 5 0 0) 2 (PID.new 10 40 0 (-1) 1 0) 4096 1 0 0 1 500 true 800).enabled_ = true ∧
    (Motor.mk (Encoder.mk 0 0 0 5 0 0) 2 (PID.new 10 40 0 (-1) 1 0) 4096 1 0 0 1 500 true 800).counts_per_rev_ ≠ 0 ∧
    (Motor.mk (Encoder.mk 0 0 0 5 0 0) 2 (PID.new 10 40 0 (-1) 1 0) 4096 1 0 0 1 500 true 800).gear_ ≠ 0 ∧
    ((Motor.mk (Encoder.mk 0 0 0 5 0 0) 2 (PID.new 10 40 0 (-1) 1 0) 4096 1 0 0 1 500 true 800).update
        Motoron.new.initBasic (1 / 1000)).2 =
      Motoron.new.initBasic.setSpeed
        (Motor.mk (Encoder.mk 0 0 0 5 0 0) 2 (PID.new 10 40 0 (-1) 1 0) 4096 1 0 0 1 500 true 800).motorId_
        (castInt16 (max (-800) (min
          (((Motor.mk (Encoder.mk 0 0 0 5 0 0) 2 (PID.new 10 40 0 (-1) 1 0) 4096 1 0 0 1 500 true 800).pid_.step
            (Motor.mk (Encoder.mk 0 0 0 5 0 0) 2 (PID.new 10 40 0 (-1) 1 0) 4096 1 0 0 1 500 true 800).ref_pos_
            ((Motor.mk (Encoder.mk 0 0 0 5 0 0) 2 (PID.new 10 40 0 (-1) 1 0) 4096 1 0 0 1 500 true 800).pos_rev_ +
              ((wrapInt32
                ((Motor.mk (Encoder.mk 0 0 0 5 0 0) 2 (PID.new 10 40 0 (-1) 1 0) 4096 1 0 0 1 500 true 800).encoder_.count -
                  (Motor.mk (Encoder.mk 0 0 0 5 0 0) 2 (PID.new 10 40 0 (-1) 1 0) 4096 1 0 0 1 500 true 800).last_counts_) :
                    Int) : ℚ) /
                (Motor.mk (Encoder.mk 0 0 0 5 0 0) 2 (PID.new 10 40 0 (-1) 1 0) 4096 1 0 0 1 500 true 800).counts_per_rev_ /
                (Motor.mk (Encoder.mk 0 0 0 5 0 0) 2 (PID.new 10 40 0 (-1) 1 0) 4096 1 0 0 1 500 true 800).gear_)
            (1 / 1000)).1 *
            (Motor.mk (Encoder.mk 0 0 0 5 0 0) 2 (PID.new 10 40 0 (-1) 1 0) 4096 1 0 0 1 500 true 800).u_to_speed_)
          800))) :=
  ⟨rfl,
   ((disabled_motor_coasts
      (Motor.mk (Encoder.mk 0 0 0 5 0 0) 2 (PID.new 10 40 0 (-1) 1 0) 4096 1 0 0 1 500 false 800)
      (Motoron.new.initBasic.setSpeed 2 500) (1 / 1000)).2.2.1 rfl).1,
   ((disabled_motor_coasts
      (Motor.mk (Encoder.mk 0 0 0 5 0 0) 2 (PID.new 10 40 0 (-1) 1 0) 4096 1 0 0 1 500 false 800)
      (Motoron.new.initBasic.setSpeed 2 500) (1 / 1000)).2.2.1 rfl).2,
   rfl, by norm_num, by norm_num,
   (disabled_motor_coasts
      (Motor.mk (Encoder.mk 0 0 0 5 0 0) 2 (PID.new 10 40 0 (-1) 1 0) 4096 1 0 0 1 500 true 800)
      Motoron.new.initBasic (1 / 1000)).2.2.2.2.2 rfl (by norm_num) (by norm_num)⟩

/-- C18: `setSpeed` writes nothing when the driver is not enabled (as it is
after construction and after `enable(false)`); when the driver is enabled (as
it is after `initBasic`) it writes exactly one frame of four bytes, the
set-speed command byte, the channel id masked to seven bits, and two payload
bytes that carry the speed clamped to `[-800, 800]`. -/
theorem setSpeed_writes_clamped_frame (d : Motoron) (motor : Nat) (speed : Int) :
    (Motoron.new.enabled_ = false ∧ (d.enable false).enabled_ = false ∧
      d.initBasic.enabled_ = true) ∧
    (d.enabled_ = false → d.setSpeed motor speed = d) ∧
    (d.enabled_ = true →
      ∃ frame : List Nat,
        (d.setSpeed motor speed).bus = d.bus ++ [frame] ∧
        (d.setSpeed motor speed).enabled_ = true ∧
        frame.length = 4 ∧
        frame.getD 0 0 = 0xD2 ∧ frame.getD 1 0 = motor % 128 ∧
        Motoron.frameSpeed frame = max (-800) (min speed 800) ∧
        -800 ≤ Motoron.frameSpeed frame ∧ Motoron.frameSpeed frame ≤ 800) := by
  refine ⟨⟨rfl, rfl, rfl⟩, ?_, ?_⟩
  · intro hdis
    unfold Motoron.setSpeed
    rw [hdis]
    rfl
  · intro hen
    have hc : stdMaxInt16 (-800) (stdMinInt16 800 speed) = max (-800) (min speed 800) := by
      rw [stdMaxInt16_eq_max, stdMinInt16_eq_min, min_comm]
    have hlo : -800 ≤ max (-800) (min speed 800) := le_max_left _ _
    have hhi : max (-800) (min speed 800) ≤ 800 := max_le (by decide) (min_le_right _ _)
    have hfs := Motoron.frameSpeed_speedFrame motor _ hlo hhi
    refine ⟨Motoron.speedFrame motor (max (-800) (min speed 800)), ?_, ?_, rfl, rfl, rfl, hfs, ?_, ?_⟩
    · unfold Motoron.setSpeed
      rw [hen, hc]
      rfl
    · unfold Motoron.setSpeed
      rw [hen]
      exact hen
    · rw [hfs]; exact hlo
    · rw [hfs]; exact hhi

/-- Witness for C18: speed -1000 on channel 2 of an initialised driver goes out
as `D2 02 60 79`, which carries -800; on a fresh driver nothing is written. -/
theorem setSpeed_writes_clamped_frame_witness :
    Motoron.new.initBasic.enabled_ = true ∧
    (Motoron.new.initBasic.setSpeed 2 (-1000)).bus =
      Motoron.new.initBasic.bus ++ [[0xD2, 0x02, 0x60, 0x79]] ∧
    Motoron.frameSpeed [0xD2, 0x02, 0x60, 0x79] = -800 ∧
    Motoron.new.enabled_ = false ∧
    Motoron.new.setSpeed 2 (-1000) = Motoron.new ∧
    (∃ frame : List Nat,
      (Motoron.new.initBasic.setSpeed 2 (-1000)).bus = Motoron.new.initBasic.bus ++ [frame] ∧
      (Motoron.new.initBasic.setSpeed 2 (-1000)).enabled_ = true ∧
      frame.length = 4 ∧
      frame.getD 0 0 = 0xD2 ∧ frame.getD 1 0 = 2 % 128 ∧
      Motoron.frameSpeed frame = max (-800) (min (-1000) 800) ∧
      -800 ≤ Motoron.frameSpeed frame ∧ Motoron.frameSpeed frame ≤ 800) :=
  ⟨by decide, by decide, by decide, by decide,
   (setSpeed_writes_clamped_frame Motoron.new 2 (-1000)).2.1 (by decide),
   (setSpeed_writes_clamped_frame Motoron.new.initBasic 2 (-1000)).2.2 (by decide)⟩

/-! ## Theorems: ThreadMonitor -/

/-- The spin-wait returns exactly when some later clock reading reaches the
deadline. -/
theorem ThreadMonitor.spinWait_isSome_iff (d : Int) (l : List Int) :
    (∃ rest2, ThreadMonitor.spinWait d l = some rest2) ↔ ∃ r ∈ l, d ≤ r := by
  induction l with
  | nil => simp [ThreadMonitor.spinWait]
  | cons now rest ih =>
    unfold ThreadMonitor.spinWait
    by_cases h : now < d
    · rw [if_pos h, ih]
      constructor
      · rintro ⟨r, hr, hd⟩
        exact ⟨r, List.mem_cons_of_mem _ hr, hd⟩
      · rintro ⟨r, hr, hd⟩
        rcases List.mem_cons.mp hr with rfl | hr2
        · omega
        · exact ⟨r, hr2, hd⟩
    · rw [if_neg h]
      constructor
      · intro _
        exact ⟨now, List.mem_cons_self _ _, not_lt.mp h⟩
      · intro _
        exact ⟨rest, rfl⟩

/-- What the spin-wait consumed when it returns: readings before the deadline,
then one reading at or after it. -/
theorem ThreadMonitor.spinWait_consumed (d : Int) (l rest2 : List Int)
    (h : ThreadMonitor.spinWait d l = some rest2) :
    ∃ pre r, l = pre ++ r :: rest2 ∧ (∀ x ∈ pre, x < d) ∧ d ≤ r := by
  induction l with
  | nil => simp [ThreadMonitor.spinWait] at h
  | cons now rest ih =>
    unfold ThreadMonitor.spinWait at h
    by_cases hlt : now < d
    · rw [if_pos hlt] at h
      obtain ⟨pre, r, hl, hpre, hr⟩ := ih h
      refine ⟨now :: pre, r, by rw [hl]; rfl, ?_, hr⟩
      intro x hx
      rcases List.mem_cons.mp hx with rfl | hx2
      · exact hlt
      · exact hpre x hx2
    · rw [if_neg hlt] at h
      have hrest : rest = rest2 := Option.some.inj h
      exact ⟨[], now, by rw [hrest]; rfl, by simp, not_lt.mp hlt⟩

/-- The method `end_iter` when the end time is past the deadline: it returns
at once, with the miss recorded. -/
theorem ThreadMonitor.end_iter_miss (m : ThreadMonitor) (p t : Int) (rest : List Int)
    (h : m.t_start_ + p < t) :
    ∃ m' : ThreadMonitor, m.end_iter p (t :: rest) = some (m', rest) ∧
      m'.t_start_ = m.t_start_ ∧
      m'.iters_ = (m.iters_ + 1) % 18446744073709551616 ∧
      m'.busy_ns_ = m.busy_ns_ + (t - m.t_start_) ∧
      m'.misses_ = (m.misses_ + 1) % 18446744073709551616 ∧
      m'.worst_overrun_ns_ = max m.worst_overrun_ns_ (t - m.t_start_ - p) := by
  have hgt : t > m.t_start_ + p := h
  simp only [ThreadMonitor.end_iter, if_pos hgt]
  by_cases ho : t - (m.t_start_ + p) > m.worst_overrun_ns_
  · rw [if_pos ho]
    refine ⟨_, rfl, rfl, rfl, rfl, rfl, ?_⟩
    show t - (m.t_start_ + p) = max m.worst_overrun_ns_ (t - m.t_start_ - p)
    rw [max_eq_right (by omega)]
    omega
  · rw [if_neg ho]
    refine ⟨_, rfl, rfl, rfl, rfl, rfl, ?_⟩
    show m.worst_overrun_ns_ = max m.worst_overrun_ns_ (t - m.t_start_ - p)
    rw [max_eq_left (by omega)]

/-- The method `end_iter` when the end time is not past the deadline: the
accounting is done, then the spin-wait decides when it returns. -/
theorem ThreadMonitor.end_iter_wait (m : ThreadMonitor) (p t : Int) (rest : List Int)
    (h : t ≤ m.t_start_ + p) (m' : ThreadMonitor) (rest2 : List Int) :
    m.end_iter p (t :: rest) = some (m', rest2) ↔
      (ThreadMonitor.spinWait (m.t_start_ + p) rest = some rest2 ∧
        m' = { m with busy_ns_ := m.busy_ns_ + (t - m.t_start_),
                      iters_ := (m.iters_ + 1) % 18446744073709551616 }) := by
  have hgt : ¬ t > m.t_start_ + p := not_lt.mpr h
  simp only [ThreadMonitor.end_iter, if_neg hgt]
  cases hs : ThreadMonitor.spinWait (m.t_start_ + p) rest with
  | none => simp
  | some r =>
    simp only [Option.some.injEq, Prod.mk.injEq]
    constructor
    · rintro ⟨h1, h2⟩
      exact ⟨h2, h1.symm⟩
    · rintro ⟨h1, h2⟩
      exact ⟨h2.symm, h1⟩

/-- A 64-bit unsigned increment always changes the value. -/
theorem uint64_succ_ne (n : Nat) : (n + 1) % 18446744073709551616 ≠ n := by
  omega

/-- C19: with start time `s = t_start_`, end time `t` (the first clock reading)
and period `p`, `end_iter` returns when `t > s + p` or a later reading reaches
the deadline, and the monitor it leaves has the iteration count incremented by
one and the busy time increased by `t - s`; the miss count is incremented by
one if and only if `t > s + p`, and then the worst overrun is
`max(previous worst, t - s - p)`; when `t <= s + p` the miss count and the
worst overrun are unchanged. -/
theorem end_iter_accounting (m : ThreadMonitor) (p t : Int) (rest : List Int) :
    ((m.t_start_ + p < t ∨ ∃ r ∈ rest, m.t_start_ + p ≤ r) →
      ∃ m' rest2, m.end_iter p (t :: rest) = some (m', rest2)) ∧
    (∀ (m' : ThreadMonitor) (rest2 : List Int), m.end_iter p (t :: rest) = some (m', rest2) →
      m'.iters_ = (m.iters_ + 1) % 18446744073709551616 ∧
      m'.busy_ns_ = m.busy_ns_ + (t - m.t_start_) ∧
      (m'.misses_ = (m.misses_ + 1) % 18446744073709551616 ↔ m.t_start_ + p < t) ∧
      (m.t_start_ + p < t →
        m'.worst_overrun_ns_ = max m.worst_overrun_ns_ (t - m.t_start_ - p)) ∧
      (t ≤ m.t_start_ + p →
        m'.misses_ = m.misses_ ∧ m'.worst_overrun_ns_ = m.worst_overrun_ns_)) := by
  constructor
  · intro h
    by_cases hmiss : m.t_start_ + p < t
    · obtain ⟨m', hm', _⟩ := ThreadMonitor.end_iter_miss m p t rest hmiss
      exact ⟨m', rest, hm'⟩
    · have hle : t ≤ m.t_start_ + p := not_lt.mp hmiss
      rcases h with h | h
      · exact absurd h hmiss
      · obtain ⟨rest2, hr⟩ := (ThreadMonitor.spinWait_isSome_iff _ _).mpr h
        exact ⟨_, rest2, (ThreadMonitor.end_iter_wait m p t rest hle _ rest2).mpr ⟨hr, rfl⟩⟩
  · intro m' rest2 hret
    by_cases hmiss : m.t_start_ + p < t
    · obtain ⟨m2, hm2, _, hi, hb, hmi, hw⟩ := ThreadMonitor.end_iter_miss m p t rest hmiss
      rw [hm2] at hret
      have heq : m2 = m' := (Prod.mk.inj (Option.some.inj hret)).1
      rw [← heq]
      refine ⟨hi, hb, ⟨fun _ => hmiss, fun _ => hmi⟩, fun _ => hw, ?_⟩
      intro hle
      omega
    · have hle : t ≤ m.t_start_ + p := not_lt.mp hmiss
      obtain ⟨_, hm'⟩ := (ThreadMonitor.end_iter_wait m p t rest hle m' rest2).mp hret
      rw [hm']
      refine ⟨rfl, rfl, ⟨?_, fun h => absurd h hmiss⟩, fun h => absurd h hmiss,
        fun _ => ⟨rfl, rfl⟩⟩
      intro h
      exact absurd h.symm (uint64_succ_ne m.misses_)

/-- Witness for C19: start 1000, period 100, end time 1130: one miss with an
overrun of 30 against a previous worst of 12. -/
theorem end_iter_accounting_witness :
    (ThreadMonitor.mk 1000 4 1 12 200).end_iter 100 [1130, 1140] =
      some (ThreadMonitor.mk 1000 5 2 30 330, [1140]) ∧
    ((ThreadMonitor.mk 1000 5 2 30 330).iters_ =
        ((ThreadMonitor.mk 1000 4 1 12 200).iters_ + 1) % 18446744073709551616 ∧
     (ThreadMonitor.mk 1000 5 2 30 330).busy_ns_ =
        (ThreadMonitor.mk 1000 4 1 12 200).busy_ns_ +
          (1130 - (ThreadMonitor.mk 1000 4 1 12 200).t_start_) ∧
     ((ThreadMonitor.mk 1000 5 2 30 330).misses_ =
          ((ThreadMonitor.mk 1000 4 1 12 200).misses_ + 1) % 18446744073709551616 ↔
        (ThreadMonitor.mk 1000 4 1 12 200).t_start_ + 100 < 1130) ∧
     ((ThreadMonitor.mk 1000 4 1 12 200).t_start_ + 100 < 1130 →
        (ThreadMonitor.mk 1000 5 2 30 330).worst_overrun_ns_ =
          max (ThreadMonitor.mk 1000 4 1 12 200).worst_overrun_ns_
            (1130 - (ThreadMonitor.mk 1000 4 1 12 200).t_start_ - 100)) ∧
     (1130 ≤ (ThreadMonitor.mk 1000 4 1 12 200).t_start_ + 100 →
        (ThreadMonitor.mk 1000 5 2 30 330).misses_ =
            (ThreadMonitor.mk 1000 4 1 12 200).misses_ ∧
          (ThreadMonitor.mk 1000 5 2 30 330).worst_overrun_ns_ =
            (ThreadMonitor.mk 1000 4 1 12 200).worst_overrun_ns_)) :=
  ⟨by decide,
   (end_iter_accounting (ThreadMonitor.mk 1000 4 1 12 200) 100 1130 [1140]).2
     (ThreadMonitor.mk 1000 5 2 30 330) [1140] (by decide)⟩

/-- C20: with the clock a non-decreasing sequence of readings and the end time
`t` at or before `start + period`, `end_iter` returns exactly when some later
reading reaches the deadline, and when it returns it has consumed readings
below the deadline followed by one reading at or after it; every reading left
for later is at or after the deadline too. -/
theorem end_iter_waits_for_deadline (m : ThreadMonitor) (p t : Int) (rest : List Int)
    (hle : t ≤ m.t_start_ + p) (hmono : List.Pairwise (fun a b => a ≤ b) (t :: rest)) :
    ((∃ r ∈ rest, m.t_start_ + p ≤ r) ↔
      ∃ m' rest2, m.end_iter p (t :: rest) = some (m', rest2)) ∧
    (∀ (m' : ThreadMonitor) (rest2 : List Int), m.end_iter p (t :: rest) = some (m', rest2) →
      ∃ pre r, rest = pre ++ r :: rest2 ∧ (∀ x ∈ pre, x < m.t_start_ + p) ∧
        m.t_start_ + p ≤ r ∧ (∀ y ∈ rest2, m.t_start_ + p ≤ y)) := by
  constructor
  · constructor
    · intro h
      obtain ⟨rest2, hr⟩ := (ThreadMonitor.spinWait_isSome_iff _ _).mpr h
      exact ⟨_, rest2, (ThreadMonitor.end_iter_wait m p t rest hle _ rest2).mpr ⟨hr, rfl⟩⟩
    · rintro ⟨m', rest2, hret⟩
      obtain ⟨hs, _⟩ := (ThreadMonitor.end_iter_wait m p t rest hle m' rest2).mp hret
      exact (ThreadMonitor.spinWait_isSome_iff _ _).mp ⟨rest2, hs⟩
  · intro m' rest2 hret
    obtain ⟨hs, _⟩ := (ThreadMonitor.end_iter_wait m p t rest hle m' rest2).mp hret
    obtain ⟨pre, r, hl, hpre, hr⟩ := ThreadMonitor.spinWait_consumed _ _ _ hs
    refine ⟨pre, r, hl, hpre, hr, ?_⟩
    intro y hy
    have hrest : List.Pairwise (fun a b => a ≤ b) rest := (List.pairwise_cons.mp hmono).2
    rw [hl] at hrest
    have htail : List.Pairwise (fun a b => a ≤ b) (r :: rest2) :=
      (List.pairwise_append.mp hrest).2.1
    have hry : r ≤ y := (List.pairwise_cons.mp htail).1 y hy
    omega

/-- Witness for C20: start 1000, period 100, clock readings 1040 (the end
time), 1070, 1099, 1100, 1101: the method returns after reading 1100. -/
theorem end_iter_waits_for_deadline_witness :
    (1040 : Int) ≤ (ThreadMonitor.mk 1000 4 1 12 200).t_start_ + 100 ∧
    List.Pairwise (fun a b : Int => a ≤ b) [1040, 1070, 1099, 1100, 1101] ∧
    (ThreadMonitor.mk 1000 4 1 12 200).end_iter 100 [1040, 1070, 1099, 1100, 1101] =
      some (ThreadMonitor.mk 1000 5 1 12 240, [1101]) ∧
    (∃ pre r, [1070, 1099, 1100, 1101] = pre ++ r :: [1101] ∧
      (∀ x ∈ pre, x < (ThreadMonitor.mk 1000 4 1 12 200).t_start_ + 100) ∧
      (ThreadMonitor.mk 1000 4 1 12 200).t_start_ + 100 ≤ r ∧
      (∀ y ∈ [1101], (ThreadMonitor.mk 1000 4 1 12 200).t_start_ + 100 ≤ y)) :=
  ⟨by decide, by decide, by decide,
   (end_iter_waits_for_deadline (ThreadMonitor.mk 1000 4 1 12 200) 100 1040
      [1070, 1099, 1100, 1101] (by decide) (by decide)).2
      (ThreadMonitor.mk 1000 5 1 12 240) [1101] (by decide)⟩

/-! ## Theorems: snapshot, integrator update -/

/-- C21: `snapshot_reset` hands back the iteration count, the miss count and
the worst overrun of the window, with -1 as utilization, and leaves all three
and the busy time at 0 (the start time is kept); a second `snapshot_reset`
right after it hands back (0, 0, 0), again with -1. -/
theorem snapshot_reset_consumes_window (m : ThreadMonitor) :
    m.snapshot_reset.1 = (-1, m.iters_, m.misses_, m.worst_overrun_ns_) ∧
    (m.snapshot_reset.2.iters_ = 0 ∧ m.snapshot_reset.2.misses_ = 0 ∧
      m.snapshot_reset.2.worst_overrun_ns_ = 0 ∧ m.snapshot_reset.2.busy_ns_ = 0 ∧
      m.snapshot_reset.2.t_start_ = m.t_start_) ∧
    m.snapshot_reset.2.snapshot_reset.1 = (-1, 0, 0, 0) ∧
    m.snapshot_reset.2.snapshot_reset.2 = m.snapshot_reset.2 :=
  ⟨rfl, ⟨rfl, rfl, rfl, rfl, rfl⟩, rfl, rfl⟩

/-- The integrator left by `step` in the back-calculation branch. -/
theorem PID.step_integrator_back_calculation (s : PID) (r m ts : ℚ)
    (haw : s.anti_windup_gain_ > 0) :
    (s.step r m ts).2.integrator_state_ =
      PID.clamp
        (s.integrator_state_ +
          (s.i_gain_ * (r - m) +
            s.anti_windup_gain_ * ((s.step r m ts).1 - s.specUnclamped r m ts)) * PID.guardTs ts)
        s.integrator_min_ s.integrator_max_ := by
  simp only [PID.step, PID.specUnclamped, if_pos haw]

/-- A branch on a negated flag, read as a branch on the condition the flag
decides. -/
theorem ite_not_flag (b : Bool) (c : Prop) [Decidable c] (h : b = true ↔ c) (x y : ℚ) :
    (if (!b) = true then x else y) = if c then y else x := by
  cases b with
  | false =>
    have hc : ¬ c := fun hc => Bool.false_ne_true (h.mpr hc)
    rw [if_neg hc]
    rfl
  | true =>
    have hc : c := h.mp rfl
    rw [if_pos hc]
    rfl

/-- The integrator left by `step` in the conditional-integration branch. -/
theorem PID.step_integrator_conditional (s : PID) (r m ts : ℚ)
    (haw : ¬ s.anti_windup_gain_ > 0) :
    (s.step r m ts).2.integrator_state_ =
      PID.clamp
        (if (s.specUnclamped r m ts ≥ s.output_max_ ∧ r - m > 0) ∨
            (s.specUnclamped r m ts ≤ s.output_min_ ∧ r - m < 0) then
          s.integrator_state_
        else s.integrator_state_ + s.i_gain_ * (r - m) * PID.guardTs ts)
        s.integrator_min_ s.integrator_max_ := by
  simp only [PID.step, PID.specUnclamped, if_neg haw]
  congr 1
  apply ite_not_flag
  simp only [Bool.or_eq_true, Bool.and_eq_true, decide_eq_true_eq]

/-- C22: with `antiWindupGain > 0`, the integrator after `step` is
`I + (Ki*e + antiWindupGain*(clamped - unclamped))*dt` clamped to the integrator
limits, where `I` is the integrator before the step, `e` the error, `dt` the
time step in force, and `unclamped`, `clamped` the commands this same step
computes from `I`. -/
theorem back_calculation_integrator (s : PID) (r m ts : ℚ) (haw : s.anti_windup_gain_ > 0) :
    ∀ e dt u c : ℚ, e = r - m → dt = PID.guardTs ts →
      u = s.p_gain_ * e + s.integrator_state_ + s.d_gain_ * (e - s.previous_error_) / dt →
      c = max s.output_min_ (min u s.output_max_) →
      (s.step r m ts).1 = c ∧
      (s.step r m ts).2.integrator_state_ =
        max s.integrator_min_
          (min (s.integrator_state_ + (s.i_gain_ * e + s.anti_windup_gain_ * (c - u)) * dt)
            s.integrator_max_) := by
  intro e dt u c he hdt hu hc
  have hus : s.specUnclamped r m ts = u := by
    rw [hu, he, hdt]
    rfl
  have hcs : (s.step r m ts).1 = c := by
    rw [(PID.step_command s r m ts).1, hus, PID.clamp_eq, hc]
  refine ⟨hcs, ?_⟩
  rw [PID.step_integrator_back_calculation s r m ts haw, PID.clamp_eq, hcs, hus, he, hdt]

/-- Witness for C22: `Kp = 10`, `Ki = 40`, `Kaw = 100`, limits `[-1, 1]`, error
1, `dt = 1/1000`: the integrator goes from 0 to `(40 + 100*(1 - 10))/1000`. -/
theorem back_calculation_integrator_witness :
    (PID.new 10 40 0 (-1) 1 100).anti_windup_gain_ > 0 ∧
    ((PID.new 10 40 0 (-1) 1 100).step 1 0 (1 / 1000)).1 = 1 ∧
    ((PID.new 10 40 0 (-1) 1 100).step 1 0 (1 / 1000)).2.integrator_state_ = -43 / 50 := by
  have hs : PID.new 10 40 0 (-1) 1 100 =
      { p_gain_ := 10, i_gain_ := 40, d_gain_ := 0, output_min_ := -1, output_max_ := 1,
        integrator_min_ := -1000000, integrator_max_ := 1000000, anti_windup_gain_ := 100,
        integrator_state_ := 0, previous_error_ := 0,
        last_control_unclamped_ := 0, last_control_saturated_ := 0 } := by
    norm_num [PID.new, PID.newDefault]
  have haw : (PID.new 10 40 0 (-1) 1 100).anti_windup_gain_ > 0 := by
    rw [hs]; norm_num
  have h := back_calculation_integrator (PID.new 10 40 0 (-1) 1 100) 1 0 (1 / 1000) haw
    1 (1 / 1000) 10 1 (by norm_num) (by norm_num [PID.guardTs])
    (by rw [hs]; norm_num) (by rw [hs]; norm_num)
  refine ⟨haw, h.1, ?_⟩
  rw [h.2, hs]
  norm_num

/-- C23 (as amended): with `antiWindupGain = 0`, `step` leaves the integrator at `clamp(I)`
when the unclamped command is at or above `outputMax` with positive error, or
at or below `outputMin` with negative error, and at `clamp(I + Ki*e*dt)` in
every other case, the clamp being to the integrator limits; with
`outputMin < outputMax`, a command saturated on one side with an error of the
opposite sign is such another case. -/
theorem conditional_integration_cases (s : PID) (r m ts : ℚ) (haw : s.anti_windup_gain_ = 0) :
    ∀ e dt u : ℚ, e = r - m → dt = PID.guardTs ts →
      u = s.p_gain_ * e + s.integrator_state_ + s.d_gain_ * (e - s.previous_error_) / dt →
      (((u ≥ s.output_max_ ∧ e > 0) ∨ (u ≤ s.output_min_ ∧ e < 0)) →
        (s.step r m ts).2.integrator_state_ =
          max s.integrator_min_ (min s.integrator_state_ s.integrator_max_)) ∧
      (¬ ((u ≥ s.output_max_ ∧ e > 0) ∨ (u ≤ s.output_min_ ∧ e < 0)) →
        (s.step r m ts).2.integrator_state_ =
          max s.integrator_min_
            (min (s.integrator_state_ + s.i_gain_ * e * dt) s.integrator_max_)) ∧
      (s.output_min_ < s.output_max_ → u ≥ s.output_max_ → e < 0 →
        (s.step r m ts).2.integrator_state_ =
          max s.integrator_min_
            (min (s.integrator_state_ + s.i_gain_ * e * dt) s.integrator_max_)) ∧
      (s.output_min_ < s.output_max_ → u ≤ s.output_min_ → e > 0 →
        (s.step r m ts).2.integrator_state_ =
          max s.integrator_min_
            (min (s.integrator_state_ + s.i_gain_ * e * dt) s.integrator_max_)) := by
  intro e dt u he hdt hu
  have hus : s.specUnclamped r m ts = u := by
    rw [hu, he, hdt]
    rfl
  have hstep := PID.step_integrator_conditional s r m ts (by rw [haw]; exact lt_irrefl 0)
  rw [hus, ← he, ← hdt, PID.clamp_eq] at hstep
  have hskip : ((u ≥ s.output_max_ ∧ e > 0) ∨ (u ≤ s.output_min_ ∧ e < 0)) →
      (s.step r m ts).2.integrator_state_ =
        max s.integrator_min_ (min s.integrator_state_ s.integrator_max_) := by
    intro h
    rw [hstep, if_pos h]
  have hint : ¬ ((u ≥ s.output_max_ ∧ e > 0) ∨ (u ≤ s.output_min_ ∧ e < 0)) →
      (s.step r m ts).2.integrator_state_ =
        max s.integrator_min_
          (min (s.integrator_state_ + s.i_gain_ * e * dt) s.integrator_max_) := by
    intro h
    rw [hstep, if_neg h]
  refine ⟨hskip, hint, ?_, ?_⟩
  · intro hlt hsat hneg
    apply hint
    rintro (⟨_, hpos⟩ | ⟨hlow, _⟩)
    · exact absurd hpos (not_lt.mpr hneg.le)
    · exact absurd (hlt.trans_le hsat) (not_lt.mpr hlow)
  · intro hlt hsat hpos
    apply hint
    rintro (⟨hhigh, _⟩ | ⟨_, hneg⟩)
    · exact absurd (hlt.trans_le hhigh) (not_lt.mpr hsat)
    · exact absurd hpos (not_lt.mpr hneg.le)

/-- Witness for C23 (amended): `Kp = 10`, `Ki = 40`, limits `[-1, 1]`, integrator seeded
at 20 and error -1: the command `10*(-1) + 20 = 10` is saturated high while the
error is negative, and the integrator moves to `20 - 40/1000`. -/
theorem conditional_integration_cases_witness :
    ((PID.new 10 40 0 (-1) 1 0).reset 20 (-1)).anti_windup_gain_ = 0 ∧
    (((PID.new 10 40 0 (-1) 1 0).reset 20 (-1)).step 0 1 (1 / 1000)).2.integrator_state_ =
      max ((PID.new 10 40 0 (-1) 1 0).reset 20 (-1)).integrator_min_
        (min (((PID.new 10 40 0 (-1) 1 0).reset 20 (-1)).integrator_state_ +
            ((PID.new 10 40 0 (-1) 1 0).reset 20 (-1)).i_gain_ * (-1) * (1 / 1000))
          ((PID.new 10 40 0 (-1) 1 0).reset 20 (-1)).integrator_max_) := by
  have hs : (PID.new 10 40 0 (-1) 1 0).reset 20 (-1) =
      { p_gain_ := 10, i_gain_ := 40, d_gain_ := 0, output_min_ := -1, output_max_ := 1,
        integrator_min_ := -1000000, integrator_max_ := 1000000, anti_windup_gain_ := 0,
        integrator_state_ := 20, previous_error_ := -1,
        last_control_unclamped_ := 0, last_control_saturated_ := 0 } := by
    norm_num [PID.new, PID.newDefault, PID.reset, PID.clamp, stdMax, stdMin]
  have haw : ((PID.new 10 40 0 (-1) 1 0).reset 20 (-1)).anti_windup_gain_ = 0 := by
    rw [hs]
  exact ⟨haw,
    (conditional_integration_cases ((PID.new 10 40 0 (-1) 1 0).reset 20 (-1)) 0 1 (1 / 1000) haw
      (-1) (1 / 1000) 10 (by norm_num) (by norm_num [PID.guardTs])
      (by rw [hs]; norm_num)).2.2.1 (by rw [hs]; norm_num) (by rw [hs]; norm_num)
      (by norm_num)⟩

/-- C23 (counterexample to the claim as stated): equal output limits
`outputMin = outputMax = 1` (stored as given by the constructor), `Kp = 10`,
`Ki = 40`, integrator seeded at 11, error -1: the unclamped command
`10*(-1) + 11 = 1` sits at `outputMax` while the error is negative, yet it is
also at `outputMin`, so the step skips the integration and the integrator stays
11 instead of moving to `11 - 40/1000`. -/
theorem saturated_opposite_error_skips_at_equal_limits :
    ((PID.new 10 40 0 1 1 0).reset 11 (-1)).anti_windup_gain_ = 0 ∧
    ((PID.new 10 40 0 1 1 0).reset 11 (-1)).output_min_ = 1 ∧ ((PID.new 10 40 0 1 1 0).reset 11 (-1)).output_max_ = 1 ∧
    ((PID.new 10 40 0 1 1 0).reset 11 (-1)).specUnclamped 0 1 (1 / 1000) ≥ ((PID.new 10 40 0 1 1 0).reset 11 (-1)).output_max_ ∧
    (0 : ℚ) - 1 < 0 ∧
    (((PID.new 10 40 0 1 1 0).reset 11 (-1)).step 0 1 (1 / 1000)).1 = ((PID.new 10 40 0 1 1 0).reset 11 (-1)).output_max_ ∧
    (((PID.new 10 40 0 1 1 0).reset 11 (-1)).step 0 1 (1 / 1000)).2.integrator_state_ = 11 ∧
    (((PID.new 10 40 0 1 1 0).reset 11 (-1)).step 0 1 (1 / 1000)).2.integrator_state_ ≠
      max ((PID.new 10 40 0 1 1 0).reset 11 (-1)).integrator_min_
        (min (((PID.new 10 40 0 1 1 0).reset 11 (-1)).integrator_state_ + ((PID.new 10 40 0 1 1 0).reset 11 (-1)).i_gain_ * (0 - 1) * (1 / 1000)) ((PID.new 10 40 0 1 1 0).reset 11 (-1)).integrator_max_) := by
  have hs : ((PID.new 10 40 0 1 1 0).reset 11 (-1)) =
      { p_gain_ := 10, i_gain_ := 40, d_gain_ := 0, output_min_ := 1, output_max_ := 1,
        integrator_min_ := -1000000, integrator_max_ := 1000000, anti_windup_gain_ := 0,
        integrator_state_ := 11, previous_error_ := -1,
        last_control_unclamped_ := 0, last_control_saturated_ := 0 } := by
    norm_num [PID.new, PID.newDefault, PID.reset, PID.clamp, stdMax, stdMin]
  rw [hs]
  norm_num [PID.step, PID.specUnclamped, PID.guardTs, PID.clamp, stdMax, stdMin]

/-! ## Theorems: counter wrap-around, per-edge change, reversal -/

/-- The wrap lands in the `int32_t` range. -/
theorem wrapInt32_range (a : Int) : -2147483648 ≤ wrapInt32 a ∧ wrapInt32 a < 2147483648 := by
  unfold wrapInt32
  omega

/-- Every table entry is -1, 0 or +1. -/
theorem qdelta_values : ∀ old neu : Fin 4,
    qdelta old neu = -1 ∨ qdelta old neu = 0 ∨ qdelta old neu = 1 := by
  decide

/-- Unfolding one sample of a run. -/
theorem applySamples_cons (e : Encoder) (x : Fin 4) (xs : List (Fin 4)) :
    e.applySamples (x :: xs) = (e.applyTransition x).applySamples xs := by
  simp only [Encoder.applySamples, List.foldl_cons]

/-- One quadrature step on a count within the `int32_t` range: the count is the
wrapped sum with the table entry, again within the range. -/
theorem applyTransition_count_wrapped (e : Encoder) (neu : Fin 4)
    (hlo : -2147483648 ≤ e.count_) (hhi : e.count_ < 2147483648) :
    (e.applyTransition neu).count_ = wrapInt32 (e.count_ + qdelta e.state_ neu) ∧
    -2147483648 ≤ (e.applyTransition neu).count_ ∧ (e.applyTransition neu).count_ < 2147483648 := by
  obtain ⟨_, _, hc⟩ := applyTransition_fields e neu
  have hcount : (e.applyTransition neu).count_ = wrapInt32 (e.count_ + qdelta e.state_ neu) := by
    rw [hc]
    by_cases hq : qdelta e.state_ neu = 0
    · rw [if_pos hq, hq, add_zero, wrapInt32_of_range _ hlo hhi]
    · rw [if_neg hq]
  rw [hcount]
  exact ⟨rfl, wrapInt32_range _⟩

/-- A run of samples on a count within the `int32_t` range: the count is the
start count plus the true change, wrapped; the stored state is the last
sample. -/
theorem applySamples_count_wrapped (samples : List (Fin 4)) :
    ∀ e : Encoder, -2147483648 ≤ e.count_ → e.count_ < 2147483648 →
      (e.applySamples samples).count_ = wrapInt32 (e.count_ + countDelta e.state_ samples) ∧
      (e.applySamples samples).state_ = lastState e.state_ samples := by
  induction samples with
  | nil =>
    intro e hlo hhi
    have h : e.applySamples [] = e := by
      simp only [Encoder.applySamples, List.foldl_nil]
    rw [h]
    have hd : countDelta e.state_ [] = 0 := rfl
    rw [hd, add_zero]
    exact ⟨(wrapInt32_of_range _ hlo hhi).symm, rfl⟩
  | cons x xs ih =>
    intro e hlo hhi
    obtain ⟨hc, hlo1, hhi1⟩ := applyTransition_count_wrapped e x hlo hhi
    have hs : (e.applyTransition x).state_ = x := (applyTransition_fields e x).1
    obtain ⟨h1, h2⟩ := ih (e.applyTransition x) hlo1 hhi1
    rw [applySamples_cons, h1, h2, hs, hc, wrapInt32_add]
    have hd : countDelta e.state_ (x :: xs) = qdelta e.state_ x + countDelta x xs := rfl
    rw [hd, add_assoc]
    exact ⟨rfl, rfl⟩

/-- C25: with the counter the true count wrapped into 32 bits, a true change
`d = T1 - T0` between two ticks with `-2^31 <= d < 2^31` is what the wrapping
32-bit subtraction `count - lastCount` gives, also across a wrap; `update`
then advances the position by `d / countsPerRev / gearRatio`, and this is so
for the change the encoder accumulates over any run of sampled states. -/
theorem update_delta_survives_wrap :
    (∀ T0 T1 : Int, -2147483648 ≤ T1 - T0 → T1 - T0 < 2147483648 →
      wrapInt32 (wrapInt32 T1 - wrapInt32 T0) = T1 - T0) ∧
    (∀ (m : Motor) (driver : Motoron) (dt : ℚ) (T0 T1 : Int),
      m.last_counts_ = wrapInt32 T0 → m.encoder_.count_ = wrapInt32 T1 →
      -2147483648 ≤ T1 - T0 → T1 - T0 < 2147483648 →
      (m.update driver dt).1.pos_rev_ =
        m.pos_rev_ + ((T1 - T0 : Int) : ℚ) / m.counts_per_rev_ / m.gear_ ∧
      (m.update driver dt).1.last_counts_ = wrapInt32 T1) ∧
    (∀ (m : Motor) (samples : List (Fin 4)) (driver : Motoron) (dt : ℚ),
      m.last_counts_ = m.encoder_.count_ →
      -2147483648 ≤ m.encoder_.count_ → m.encoder_.count_ < 2147483648 →
      -2147483648 ≤ countDelta m.encoder_.state_ samples →
      countDelta m.encoder_.state_ samples < 2147483648 →
      (({ m with encoder_ := m.encoder_.applySamples samples } : Motor).update driver dt).1.pos_rev_ =
        m.pos_rev_ + ((countDelta m.encoder_.state_ samples : Int) : ℚ) /
          m.counts_per_rev_ / m.gear_) := by
  have harith : ∀ T0 T1 : Int, -2147483648 ≤ T1 - T0 → T1 - T0 < 2147483648 →
      wrapInt32 (wrapInt32 T1 - wrapInt32 T0) = T1 - T0 := by
    intro T0 T1 hlo hhi
    unfold wrapInt32
    omega
  refine ⟨harith, ?_, ?_⟩
  · intro m driver dt T0 T1 hlast hcount hlo hhi
    obtain ⟨h1, h2, _⟩ := Motor.update_eq m driver dt
    rw [h2, h1, hlast, hcount, harith T0 T1 hlo hhi]
    exact ⟨rfl, rfl⟩
  · intro m samples driver dt hlast hlo hhi hdlo hdhi
    obtain ⟨_, h2, _⟩ :=
      Motor.update_eq ({ m with encoder_ := m.encoder_.applySamples samples } : Motor) driver dt
    rw [h2]
    have hc := (applySamples_count_wrapped samples m.encoder_ hlo hhi).1
    have hd : wrapInt32 ((m.encoder_.applySamples samples).count_ - m.last_counts_) =
        countDelta m.encoder_.state_ samples := by
      rw [hc, hlast]
      unfold wrapInt32
      omega
    show m.pos_rev_ + ((wrapInt32 ((m.encoder_.applySamples samples).count_ - m.last_counts_) : Int) : ℚ) /
        m.counts_per_rev_ / m.gear_ = _
    rw [hd]

/-- Witness for C25: the counter stood at `2^31 - 1` at the last tick and has
wrapped to `-2^31 + 1` after two more counts; the delta is 2. -/
theorem update_delta_survives_wrap_witness :
    (-2147483648 : Int) ≤ 2147483649 - 2147483647 ∧
    (2147483649 : Int) - 2147483647 < 2147483648 ∧
    wrapInt32 2147483649 = -2147483647 ∧
    wrapInt32 (wrapInt32 2147483649 - wrapInt32 2147483647) = 2147483649 - 2147483647 :=
  ⟨by decide, by decide, by decide,
   update_delta_survives_wrap.1 2147483647 2147483649 (by decide) (by decide)⟩

/-- C26 (as amended): on a processed edge the position count changes by the
table entry `d`, one of -1, 0, +1, in 32-bit two's-complement arithmetic: it
becomes `count + d` exactly unless that leaves the `int32_t` range, where it
wraps; the stored state becomes the freshly sampled `(A<<1)|B`, also on an
illegal transition. On an edge that is not processed (rejected by debounce or
failed read) neither the count nor the stored state changes. -/
theorem processed_edge_count_step (e : Encoder) (ev : EdgeEvent) :
    (∀ neu : Fin 4, e.debounced ev = false → readAB ev.va ev.vb = some neu →
      (qdelta e.state_ neu = -1 ∨ qdelta e.state_ neu = 0 ∨ qdelta e.state_ neu = 1) ∧
      (e.processEdge ev).count_ =
        (if qdelta e.state_ neu = 0 then e.count_
          else wrapInt32 (e.count_ + qdelta e.state_ neu)) ∧
      (-2147483648 ≤ e.count_ + qdelta e.state_ neu →
        e.count_ + qdelta e.state_ neu < 2147483648 →
        (e.processEdge ev).count_ = e.count_ + qdelta e.state_ neu) ∧
      (e.processEdge ev).state_ = neu ∧
      neu.val = 2 * (if ev.va ≠ 0 then 1 else 0) + (if ev.vb ≠ 0 then 1 else 0)) ∧
    ((e.debounced ev = true ∨ readAB ev.va ev.vb = none) →
      (e.processEdge ev).count_ = e.count_ ∧ (e.processEdge ev).state_ = e.state_) := by
  obtain ⟨hs, _, hc, _⟩ := setLastUs_fields e ev.i ev.now_us
  constructor
  · intro neu hdeb hread
    rw [processEdge_processed e ev neu hdeb hread]
    obtain ⟨h1, _, h3⟩ := applyTransition_fields (e.setLastUs ev.i ev.now_us) neu
    rw [hs, hc] at h3
    refine ⟨qdelta_values _ _, h3, ?_, h1, ?_⟩
    · intro hlo hhi
      rw [h3]
      by_cases hq : qdelta e.state_ neu = 0
      · rw [if_pos hq, hq, add_zero]
      · rw [if_neg hq, wrapInt32_of_range _ hlo hhi]
    · unfold readAB at hread
      by_cases hfail : ev.va < 0 ∨ ev.vb < 0
      · rw [if_pos hfail] at hread
        exact absurd hread (by simp)
      · rw [if_neg hfail] at hread
        have hneu := Option.some.inj hread
        rw [← hneu]
        by_cases ha : ev.va ≠ 0
        · by_cases hb : ev.vb ≠ 0
          · rw [if_pos ha, if_pos hb]; rfl
          · rw [if_pos ha, if_neg hb]; rfl
        · by_cases hb : ev.vb ≠ 0
          · rw [if_neg ha, if_pos hb]; rfl
          · rw [if_neg ha, if_neg hb]; rfl
  · intro h
    cases hdeb : e.debounced ev with
    | true =>
      rw [processEdge_rejected e ev hdeb]
      exact ⟨hc, hs⟩
    | false =>
      rcases h with h | h
      · rw [hdeb] at h
        exact absurd h (by decide)
      · rw [processEdge_read_failed e ev hdeb h]
        exact ⟨hc, hs⟩

/-- Witness for C26 (amended): count 5, stored state 00, an edge sampled as 01:
the count becomes 6 and the state 01. -/
theorem processed_edge_count_step_witness :
    (Encoder.mk 5 0 0 0 0 0).debounced (EdgeEvent.mk 1 100 0 1) = false ∧
    readAB (EdgeEvent.mk 1 100 0 1).va (EdgeEvent.mk 1 100 0 1).vb = some 1 ∧
    ((Encoder.mk 5 0 0 0 0 0).processEdge (EdgeEvent.mk 1 100 0 1)).count_ =
      (Encoder.mk 5 0 0 0 0 0).count_ + qdelta (Encoder.mk 5 0 0 0 0 0).state_ 1 ∧
    ((Encoder.mk 5 0 0 0 0 0).processEdge (EdgeEvent.mk 1 100 0 1)).state_ = 1 :=
  ⟨by decide, by decide,
   ((processed_edge_count_step (Encoder.mk 5 0 0 0 0 0) (EdgeEvent.mk 1 100 0 1)).1 1
      (by decide) (by decide)).2.2.1 (by decide) (by decide),
   ((processed_edge_count_step (Encoder.mk 5 0 0 0 0 0) (EdgeEvent.mk 1 100 0 1)).1 1
      (by decide) (by decide)).2.2.2.1⟩

/-- C26 (counterexample to the claim as stated): count `2^31 - 1`, stored state
00, a processed edge sampled as 01 (table entry +1): the count becomes `-2^31`,
a change of `-(2^32 - 1)`, none of -1, 0, +1. -/
theorem processed_edge_count_wraps :
    (Encoder.mk 2147483647 0 0 0 0 0).debounced (EdgeEvent.mk 1 100 0 1) = false ∧
    readAB (EdgeEvent.mk 1 100 0 1).va (EdgeEvent.mk 1 100 0 1).vb = some 1 ∧
    ((Encoder.mk 2147483647 0 0 0 0 0).processEdge (EdgeEvent.mk 1 100 0 1)).count_ =
      -2147483648 ∧
    ¬ (((Encoder.mk 2147483647 0 0 0 0 0).processEdge (EdgeEvent.mk 1 100 0 1)).count_ -
          (Encoder.mk 2147483647 0 0 0 0 0).count_ = -1 ∨
       ((Encoder.mk 2147483647 0 0 0 0 0).processEdge (EdgeEvent.mk 1 100 0 1)).count_ -
          (Encoder.mk 2147483647 0 0 0 0 0).count_ = 0 ∨
       ((Encoder.mk 2147483647 0 0 0 0 0).processEdge (EdgeEvent.mk 1 100 0 1)).count_ -
          (Encoder.mk 2147483647 0 0 0 0 0).count_ = 1) := by
  decide

/-- The transition table is antisymmetric. -/
theorem qdelta_antisymm : ∀ a b : Fin 4, qdelta b a = -qdelta a b := by
  decide

/-- The true change and the final state of a run extended by one sample. -/
theorem countDelta_append_single (p : List (Fin 4)) :
    ∀ (a z : Fin 4),
      countDelta a (p ++ [z]) = countDelta a p + qdelta (lastState a p) z ∧
      lastState a (p ++ [z]) = z := by
  induction p with
  | nil =>
    intro a z
    have h1 : countDelta a ([] ++ [z]) = qdelta a z + 0 := rfl
    have h2 : countDelta a [] = 0 := rfl
    have h3 : lastState a [] = a := rfl
    rw [h1, h2, h3, add_zero, zero_add]
    exact ⟨rfl, rfl⟩
  | cons x xs ih =>
    intro a z
    obtain ⟨h1, h2⟩ := ih x z
    have hc : countDelta a (x :: xs ++ [z]) = qdelta a x + countDelta x (xs ++ [z]) := rfl
    have hl : lastState a (x :: xs ++ [z]) = lastState x (xs ++ [z]) := rfl
    have hc2 : countDelta a (x :: xs) = qdelta a x + countDelta x xs := rfl
    have hl2 : lastState a (x :: xs) = lastState x xs := rfl
    rw [hc, hl, hc2, hl2, h1, h2, add_assoc]
    exact ⟨rfl, rfl⟩

/-- Sampling a path and then the same path backwards: the true changes cancel
and the stored state is the initial one. -/
theorem countDelta_reverse (samples : List (Fin 4)) :
    ∀ s0 : Fin 4,
      countDelta (lastState s0 samples) ((s0 :: samples).reverse.tail) =
        -countDelta s0 samples ∧
      lastState (lastState s0 samples) ((s0 :: samples).reverse.tail) = s0 := by
  induction samples with
  | nil =>
    intro s0
    exact ⟨rfl, rfl⟩
  | cons x xs ih =>
    intro s0
    obtain ⟨h1, h2⟩ := ih x
    have hrev : (s0 :: x :: xs).reverse.tail = (x :: xs).reverse.tail ++ [s0] := by
      rw [List.reverse_cons (a := s0), List.tail_append_of_ne_nil]
      simp
    have hl : lastState s0 (x :: xs) = lastState x xs := rfl
    have hc : countDelta s0 (x :: xs) = qdelta s0 x + countDelta x xs := rfl
    obtain ⟨a1, a2⟩ := countDelta_append_single ((x :: xs).reverse.tail) (lastState x xs) s0
    rw [hrev, hl, hc, a1, a2, h1, h2, qdelta_antisymm s0 x]
    exact ⟨by ring, rfl⟩

/-- C27: the transition table is antisymmetric, `qdelta[b][a] = -qdelta[a][b]`;
hence processing the sampled states `s1, ..., sn` from stored state `s0` and
then the reverse sequence `s(n-1), ..., s0` returns the position count (an
`int32_t`) to its starting value and the stored state to `s0`. -/
theorem reverse_run_restores_count :
    (∀ a b : Fin 4, qdelta b a = -qdelta a b) ∧
    (∀ (e : Encoder) (samples : List (Fin 4)),
      -2147483648 ≤ e.count_ → e.count_ < 2147483648 →
      ((e.applySamples samples).applySamples ((e.state_ :: samples).reverse.tail)).count_ =
        e.count_ ∧
      ((e.applySamples samples).applySamples ((e.state_ :: samples).reverse.tail)).state_ =
        e.state_) := by
  refine ⟨qdelta_antisymm, ?_⟩
  intro e samples hlo hhi
  obtain ⟨hc, hs⟩ := applySamples_count_wrapped samples e hlo hhi
  have hr := wrapInt32_range (e.count_ + countDelta e.state_ samples)
  rw [← hc] at hr
  obtain ⟨hc2, hs2⟩ := applySamples_count_wrapped ((e.state_ :: samples).reverse.tail)
    (e.applySamples samples) hr.1 hr.2
  obtain ⟨hd, hl⟩ := countDelta_reverse samples e.state_
  rw [hc2, hs2, hs, hd, hl, hc, wrapInt32_add]
  refine ⟨?_, rfl⟩
  rw [add_neg_cancel_right]
  exact wrapInt32_of_range _ hlo hhi

/-- Witness for C27: from state 00 and count `2^31 - 1` (so the forward run
wraps), the samples 01, 11, 01 and then back 11, 01, 00. -/
theorem reverse_run_restores_count_witness :
    (-2147483648 : Int) ≤ (Encoder.mk 2147483647 0 0 5 0 0).count_ ∧
    (Encoder.mk 2147483647 0 0 5 0 0).count_ < 2147483648 ∧
    ((Encoder.mk 2147483647 0 0 5 0 0).state_ :: [1, 3, 1]).reverse.tail = [3, 1, 0] ∧
    ((Encoder.mk 2147483647 0 0 5 0 0).applySamples [1, 3, 1]).count_ = -2147483648 ∧
    (((Encoder.mk 2147483647 0 0 5 0 0).applySamples [1, 3, 1]).applySamples
        (((Encoder.mk 2147483647 0 0 5 0 0).state_ :: [1, 3, 1]).reverse.tail)).count_ =
      (Encoder.mk 2147483647 0 0 5 0 0).count_ :=
  ⟨by decide, by decide, by decide, by decide,
   (reverse_run_restores_count.2 (Encoder.mk 2147483647 0 0 5 0 0) [1, 3, 1]
      (by decide) (by decide)).1⟩

/-! ## Theorems: frames on the bus -/

/-- For a low byte below 128, `lo | (hi << 7)` is `lo + 128 * hi`. -/
theorem or_shiftLeft_seven (lo hi : Nat) (h : lo < 128) : lo ||| (hi <<< 7) = lo + 128 * hi := by
  have h7 : lo < 2 ^ 7 := h
  have hor := Nat.mul_add_lt_is_or h7 hi
  rw [Nat.shiftLeft_eq, Nat.or_comm, Nat.mul_comm hi (2 ^ 7), ← hor]
  norm_num
  exact Nat.add_comm _ _

/-- Masking a channel id with `0x7F` keeps it modulo 128. -/
theorem and_0x7F (motor : Nat) : motor &&& 0x7F = motor % 128 := by
  have h := Nat.and_pow_two_sub_one_eq_mod motor 7
  norm_num at h
  exact h

/-- The frame an enabled driver writes for a speed. -/
theorem Motoron.setSpeed_enabled (d : Motoron) (motor : Nat) (speed : Int)
    (hen : d.enabled_ = true) :
    (d.setSpeed motor speed).bus =
      d.bus ++ [Motoron.speedFrame motor (max (-800) (min speed 800))] := by
  unfold Motoron.setSpeed
  rw [hen, stdMaxInt16_eq_max, stdMinInt16_eq_min, min_comm]
  rfl

/-- C28: the set-speed frame an enabled driver writes is `0xD2` followed by
three bytes below 128: the channel id masked with `0x7F`, the low seven bits
of the clamped speed and its next seven bits (after an arithmetic shift by 7);
reading `byte2 | (byte3 << 7)` as a 14-bit two's-complement number gives back
the speed clamped to `[-800, 800]`, negative speeds included. -/
theorem speed_frame_roundtrip (d : Motoron) (motor : Nat) (speed : Int)
    (hen : d.enabled_ = true) :
    ∃ b1 b2 b3 : Nat,
      (d.setSpeed motor speed).bus = d.bus ++ [[0xD2, b1, b2, b3]] ∧
      (b1 < 128 ∧ b2 < 128 ∧ b3 < 128) ∧
      b1 = motor &&& 0x7F ∧
      (b2 : Int) = max (-800) (min speed 800) % 128 ∧
      (b3 : Int) = (max (-800) (min speed 800) >>> (7 : Nat)) % 128 ∧
      (if ((b2 ||| (b3 <<< 7) : Nat) : Int) < 8192 then ((b2 ||| (b3 <<< 7) : Nat) : Int)
        else ((b2 ||| (b3 <<< 7) : Nat) : Int) - 16384) = max (-800) (min speed 800) ∧
      Motoron.frameSpeed [0xD2, b1, b2, b3] = max (-800) (min speed 800) := by
  have hlo : -800 ≤ max (-800) (min speed 800) := le_max_left _ _
  have hhi : max (-800) (min speed 800) ≤ 800 := max_le (by decide) (min_le_right _ _)
  have hshift : max (-800) (min speed 800) >>> (7 : Nat) = max (-800) (min speed 800) / 128 := by
    rw [Int.shiftRight_eq_div_pow]
    rfl
  have hb2 : (max (-800) (min speed 800) % 128).toNat < 128 := by omega
  refine ⟨motor % 128, (max (-800) (min speed 800) % 128).toNat,
    ((max (-800) (min speed 800) / 128) % 128).toNat,
    Motoron.setSpeed_enabled d motor speed hen, ⟨Nat.mod_lt _ (by decide), hb2, by omega⟩,
    (and_0x7F motor).symm, by omega, by rw [hshift]; omega, ?_,
    Motoron.frameSpeed_speedFrame motor _ hlo hhi⟩
  rw [or_shiftLeft_seven _ _ hb2]
  split_ifs with h <;> omega

/-- Witness for C28: speed -1000 on channel 2 goes out as `D2 02 60 79`, and
`0x60 | (0x79 << 7) = 15584` read as a 14-bit two's-complement number is
-800. -/
theorem speed_frame_roundtrip_witness :
    Motoron.new.initBasic.enabled_ = true ∧
    (Motoron.new.initBasic.setSpeed 2 (-1000)).bus =
      Motoron.new.initBasic.bus ++ [[0xD2, 0x02, 0x60, 0x79]] ∧
    (0x60 ||| (0x79 <<< 7) : Nat) = 15584 ∧ (15584 : Int) - 16384 = -800 ∧
    (∃ b1 b2 b3 : Nat,
      (Motoron.new.initBasic.setSpeed 2 (-1000)).bus =
        Motoron.new.initBasic.bus ++ [[0xD2, b1, b2, b3]] ∧
      (b1 < 128 ∧ b2 < 128 ∧ b3 < 128) ∧
      b1 = 2 &&& 0x7F ∧
      (b2 : Int) = max (-800) (min (-1000) 800) % 128 ∧
      (b3 : Int) = ((max (-800) (min (-1000) 800) : Int) >>> (7 : Nat)) % 128 ∧
      (if ((b2 ||| (b3 <<< 7) : Nat) : Int) < 8192 then ((b2 ||| (b3 <<< 7) : Nat) : Int)
        else ((b2 ||| (b3 <<< 7) : Nat) : Int) - 16384) = max (-800) (min (-1000) 800) ∧
      Motoron.frameSpeed [0xD2, b1, b2, b3] = max (-800) (min (-1000) 800)) :=
  ⟨by decide, by decide, by decide, by decide,
   speed_frame_roundtrip Motoron.new.initBasic 2 (-1000) (by decide)⟩

/-- C29: the frame sent by `update` of a disabled motor and by
`Motor::enable(false)` is `0xE2` followed by seven zero bytes, whatever the
motor's channel id and the driver's enabled flag (which it leaves alone); so
when an enabled motor and then a disabled motor are updated on the same
driver, the last frame on the bus is that all-channels frame, written after
the enabled motor's set-speed frame. -/
theorem coast_frame_ends_cycle (m1 m2 : Motor) (d : Motoron) (dt : ℚ) :
    (m2.enabled_ = false →
      (m2.update d dt).2.bus = d.bus ++ [[0xE2, 0, 0, 0, 0, 0, 0, 0]] ∧
      (m2.update d dt).2.enabled_ = d.enabled_) ∧
    ((m2.enable d false).2.bus = d.bus ++ [[0xE2, 0, 0, 0, 0, 0, 0, 0]] ∧
      (m2.enable d false).2.enabled_ = d.enabled_) ∧
    (m1.enabled_ = true → m2.enabled_ = false →
      (m2.update (m1.update d dt).2 dt).2.bus.getLast? = some [0xE2, 0, 0, 0, 0, 0, 0, 0] ∧
      (d.enabled_ = true →
        ∃ speed : Int, (m1.update d dt).1.last_cmd_ = (speed : ℚ) ∧
          (m2.update (m1.update d dt).2 dt).2.bus =
            d.bus ++ [Motoron.speedFrame m1.motorId_ (max (-800) (min speed 800)),
              [0xE2, 0, 0, 0, 0, 0, 0, 0]])) := by
  have hdis : ∀ (m : Motor) (drv : Motoron), m.enabled_ = false →
      (m.update drv dt).2 = drv.coastAll := by
    intro m drv h
    rw [(Motor.update_eq m drv dt).2.2.2.2.1, h]
    rfl
  refine ⟨?_, ⟨rfl, rfl⟩, ?_⟩
  · intro h2
    rw [hdis m2 d h2]
    exact ⟨rfl, rfl⟩
  · intro h1 h2
    rw [hdis m2 _ h2]
    constructor
    · show ((m1.update d dt).2.bus ++ [[0xE2, 0, 0, 0, 0, 0, 0, 0]]).getLast? = _
      rw [List.getLast?_append]
      rfl
    · intro hen
      obtain ⟨_, _, _, h4, h5, _⟩ := Motor.update_eq m1 d dt
      refine ⟨_, h4, ?_⟩
      show (m1.update d dt).2.bus ++ [[0xE2, 0, 0, 0, 0, 0, 0, 0]] = _
      rw [h5, if_pos h1, Motoron.setSpeed_enabled d _ _ hen, List.append_assoc]
      rfl

/-- Witness for C29: motor 1 enabled, motor 2 disabled, both on an initialised
driver: the cycle ends with the all-channels frame. -/
theorem coast_frame_ends_cycle_witness :
    (Motor.mk (Encoder.mk 0 0 0 5 0 0) 1 (PID.new 10 40 0 (-1) 1 0) 4096 1 0 0 1 0 true
        800).enabled_ = true ∧
    (Motor.mk (Encoder.mk 0 0 0 5 0 0) 2 (PID.new 10 40 0 (-1) 1 0) 4096 1 0 0 1 0 false
        800).enabled_ = false ∧
    ((Motor.mk (Encoder.mk 0 0 0 5 0 0) 2 (PID.new 10 40 0 (-1) 1 0) 4096 1 0 0 1 0 false
        800).update
      ((Motor.mk (Encoder.mk 0 0 0 5 0 0) 1 (PID.new 10 40 0 (-1) 1 0) 4096 1 0 0 1 0 true
        800).update Motoron.new.initBasic (1 / 1000)).2 (1 / 1000)).2.bus.getLast? =
      some [0xE2, 0, 0, 0, 0, 0, 0, 0] :=
  ⟨rfl, rfl,
   ((coast_frame_ends_cycle
      (Motor.mk (Encoder.mk 0 0 0 5 0 0) 1 (PID.new 10 40 0 (-1) 1 0) 4096 1 0 0 1 0 true 800)
      (Motor.mk (Encoder.mk 0 0 0 5 0 0) 2 (PID.new 10 40 0 (-1) 1 0) 4096 1 0 0 1 0 false 800)
      Motoron.new.initBasic (1 / 1000)).2.2 rfl rfl).1⟩

end RpiMotorControl
